import Mathlib

/-!
Verification of the query-time result-aggregation core of SigLens
(pkg/segment/results/segresults/segresults.go), via a shallow embedding.

Go maps are embedded as association lists (`List (key × value)`); Go machine
integers are embedded as `Nat` with an explicit modulus where overflow can
occur (`MaxSegKeyEnc` is a `uint16`, `resultCount` is a `uint64`).  External
collaborators whose sources are not part of the verified core (the
`blockresults` bounded top-K container, the `segread` per-function statistic
mergers, the `aggregations` eval helpers, and Go standard-library JSON and
number parsing) are modelled from the specification; each such definition
carries a doc comment saying so.
-/

namespace SegResults

/-! ## Association-list maps (embedding of Go maps) -/

/-- Lookup in an association list; embeds Go map indexing `m[k]`. -/
def lookupA {α β : Type} [DecidableEq α] : List (α × β) → α → Option β
  | [], _ => none
  | p :: m, k => if p.1 = k then some p.2 else lookupA m k

/-- Remove every binding of key `k`; embeds Go `delete(m, k)`. -/
def eraseA {α β : Type} [DecidableEq α] : List (α × β) → α → List (α × β)
  | [], _ => []
  | p :: m, k => if p.1 = k then eraseA m k else p :: eraseA m k

/-- Overwriting insert; embeds Go map assignment `m[k] = v`. -/
def insertA {α β : Type} [DecidableEq α] (m : List (α × β)) (k : α) (v : β) :
    List (α × β) :=
  (k, v) :: eraseA m k

/-- The keys of an association list. -/
def keysA {α β : Type} (m : List (α × β)) : List α := m.map Prod.fst

variable {α β : Type} [DecidableEq α]

@[simp] theorem lookupA_nil (k : α) : lookupA ([] : List (α × β)) k = none := rfl

@[simp] theorem lookupA_cons (p : α × β) (m : List (α × β)) (k : α) :
    lookupA (p :: m) k = if p.1 = k then some p.2 else lookupA m k := rfl

@[simp] theorem eraseA_nil (k : α) : eraseA ([] : List (α × β)) k = [] := rfl

theorem eraseA_cons (p : α × β) (m : List (α × β)) (k : α) :
    eraseA (p :: m) k = if p.1 = k then eraseA m k else p :: eraseA m k := rfl

@[simp] theorem lookupA_insertA_self (m : List (α × β)) (k : α) (v : β) :
    lookupA (insertA m k v) k = some v := by
  simp [insertA]

theorem lookupA_eraseA_self (m : List (α × β)) (k : α) :
    lookupA (eraseA m k) k = none := by
  induction m with
  | nil => rfl
  | cons p m ih =>
    rw [eraseA_cons]
    by_cases hp : p.1 = k
    · simpa [hp] using ih
    · simpa [hp] using ih

theorem lookupA_eraseA_ne (m : List (α × β)) (k k' : α) (h : k ≠ k') :
    lookupA (eraseA m k) k' = lookupA m k' := by
  induction m with
  | nil => rfl
  | cons p m ih =>
    rw [eraseA_cons]
    by_cases hp : p.1 = k
    · have hne : ¬ p.1 = k' := by rw [hp]; exact h
      simp [hp, hne, ih, h]
    · by_cases hk : p.1 = k' <;> simp [hp, hk, ih, h, Ne.symm h]

theorem lookupA_insertA_ne (m : List (α × β)) (k k' : α) (v : β) (h : k ≠ k') :
    lookupA (insertA m k v) k' = lookupA m k' := by
  simp only [insertA, lookupA_cons, if_neg h]
  exact lookupA_eraseA_ne m k k' h

theorem eraseA_of_lookupA_none (m : List (α × β)) (k : α)
    (h : lookupA m k = none) : eraseA m k = m := by
  induction m with
  | nil => rfl
  | cons p m ih =>
    rw [eraseA_cons]
    by_cases hp : p.1 = k
    · simp [hp] at h
    · simp only [lookupA_cons, if_neg hp] at h
      simp [hp, ih h]

/-! ## Core enumerations (from segresults.go and pkg/segment/structs) -/

/-- `EarlyExitType` (segresults.go lines 39-47). -/
inductive EarlyExitType where
  | eetContSearch
  | eetMatchAllAggs
  | eetEarlyExit
  deriving DecidableEq, Repr

/-- `structs.QueryType`: raw-record, group-by or segment-statistics query. -/
inductive QueryType where
  | RRCCmd
  | GroupByCmd
  | SegmentStatsCmd
  deriving DecidableEq, Repr

/-- `structs.SearchNodeType`: whether the query is an unfiltered match-all. -/
inductive SearchNodeType where
  | MatchAllQuery
  | ColumnValueQuery
  deriving DecidableEq, Repr

/-- `utils.AggregateFunctions`.  The Go enumeration has more members than the
nine handled by `UpdateSegmentStats`; `unsupported` stands for any member
outside those nine (for example `utils.Median`). -/
inductive AggFunc where
  | minFn
  | maxFn
  | rangeFn
  | cardinalityFn
  | countFn
  | sumFn
  | avgFn
  | valuesFn
  | listFn
  | unsupported
  deriving DecidableEq, Repr

/-! ## Aggregation-spec data model (from pkg/segment/structs) -/

/-- `structs.SortRequest`: only the sort direction is consulted here. -/
structure SortRequest where
  ascending : Bool
  deriving DecidableEq, Repr

/-- `structs.TimeBucket` request (`aggs.TimeHistogram`): only its
aggregation name is consulted by the embedded operations. -/
structure TimeHistogramReq where
  aggName : String
  deriving DecidableEq, Repr

/-- `structs.GroupByRequest`: group-by columns, bucket-count target and
aggregation name. -/
structure GroupByRequest where
  aggName : String
  groupByColumns : List String
  bucketCount : Nat
  deriving DecidableEq, Repr

/-- `structs.MeasureAggregator`: measure function, source column and an
optional expression ("eval") form.  The expression body itself is evaluated
by the external `aggregations` package, so only its presence is modelled. -/
structure MeasureAggregator where
  measureFunc : AggFunc
  measureCol : String
  valueColRequest : Option Unit
  deriving DecidableEq, Repr

/-- `MeasureAggregator.String()`: the stable string identifier of a measure
operation, used as the key of the running result maps. -/
def MeasureAggregator.strRepr (m : MeasureAggregator) : String :=
  (match m.measureFunc with
    | .minFn => "min"
    | .maxFn => "max"
    | .rangeFn => "range"
    | .cardinalityFn => "dc"
    | .countFn => "count"
    | .sumFn => "sum"
    | .avgFn => "avg"
    | .valuesFn => "values"
    | .listFn => "list"
    | .unsupported => "unsupported") ++ "(" ++ m.measureCol ++ ")"

/-- `structs.QueryAggregators`: the immutable aggregation spec. -/
structure QueryAggregators where
  earlyExit : Bool
  sort : Option SortRequest
  timeHistogram : Option TimeHistogramReq
  groupByRequest : Option GroupByRequest
  measureOperations : Option (List MeasureAggregator)
  deriving DecidableEq, Repr

/-! ## Per-segment statistics (from pkg/segment/structs) -/

/-- `structs.StringStats`: the string-valued running state of one column.
`strSet` models the Go `map[string]struct{}` unique-string set (a nil map
and an empty map behave identically when ranged over, so both are `∅`);
`strList` models the raw observed-value list used by `List`. -/
structure StringStats where
  strSet : Finset String
  strList : List String
  deriving DecidableEq

/-- `structs.SegStats`: one column of a segment statistics payload, holding
the per-function running values needed to resume or merge (spec section 6). -/
structure SegStats where
  cnt : Nat
  minVal : Int
  maxVal : Int
  sumVal : Int
  stringStats : Option StringStats
  deriving DecidableEq

/-- A segment statistics map `map[string]*structs.SegStats` (column name to
per-column statistics). -/
abbrev SstMap := List (String × SegStats)

/-! ## Result value enclosures (from pkg/segment/utils) -/

/-- `utils.CValueEnclosure`, restricted to the dtypes the embedded
operations produce.  Float magnitudes are abstracted to `Int`: no claim
depends on floating-point values. -/
inductive CValueEnclosure where
  | floatV (v : Int)
  | intV (v : Int)
  | strV (s : String)
  | strSliceV (l : List String)
  deriving DecidableEq

/-- One slot of the Go `runningEvalStats map[string]interface{}`: either the
unique-string set maintained by the `Values` branch, or some other payload
written by an external eval helper (whose dynamic cast to a string set
fails). -/
inductive EvalVal where
  | strSetV (s : Finset String)
  | otherV
  deriving DecidableEq

/-- `segStatsResults` (segresults.go lines 99-103). -/
structure SegStatsResultsT where
  measureResults : List (String × CValueEnclosure)
  measureFunctions : List String
  groupByCols : List String
  deriving DecidableEq

/-! ## The bounded top-K container (pkg/segment/results/blockresults)

The container itself is an external collaborator ("the bounded top-K ordered
container that ranks records by sort key and evicts the worst entry on
overflow — the core treats it as a black box exposing insert, report evicted
id, get current contents"). -/

/-- A raw-log payload (`map[string]interface{}` in Go), opaque here. -/
abbrev RawLog := String

/-- `utils.RecordResultContainer`: a reference to one matched record,
sufficient for ranking (`sortValue`) and raw-payload lookup (`recordId`);
`isRemote` is `SegKeyInfo.IsRemote`. -/
structure RRC where
  recordId : String
  sortValue : Int
  isRemote : Bool
  deriving DecidableEq, Repr

/-- Modelled from the spec: the state of `blockresults.BlockResults` needed
by the aggregation core — the current top-K contents, the record cap, the
sort direction, and the running time/group-by buckets (each bucket list
holds the distinct bucket keys; `none` embeds a nil aggregation). -/
structure BlockResults where
  results : List RRC
  sizeLimit : Nat
  ascending : Bool
  timeBuckets : Option (List String)
  groupByBuckets : Option (List String)
  deriving DecidableEq, Repr

/-- The worse of two records for the configured sort direction: ascending
sorts keep small sort values, so the larger value is worse. -/
def findWorst (asc : Bool) (l : List RRC) : Option RRC :=
  if asc then l.argmax (fun r => r.sortValue) else l.argmin (fun r => r.sortValue)

/-- Whether record `a` ranks strictly better than record `b`. -/
def ranksBetter (asc : Bool) (a b : RRC) : Bool :=
  if asc then a.sortValue < b.sortValue else b.sortValue < a.sortValue

/-- Modelled from the spec: `BlockResults.Add` — "insert, report evicted
id".  If the container is not yet full the record is admitted with nothing
evicted; otherwise it is admitted exactly when it ranks strictly better than
the current worst entry, which is then evicted and its record id reported;
an empty reported id denotes "nothing evicted". -/
def BlockResults.add (br : BlockResults) (r : RRC) :
    BlockResults × Bool × String :=
  if br.results.length < br.sizeLimit then
    ({ br with results := r :: br.results }, true, "")
  else
    match findWorst br.ascending br.results with
    | none => (br, false, "")
    | some w =>
      if ranksBetter br.ascending r w then
        ({ br with results := r :: br.results.filter (fun x => ¬ x = w) },
         true, w.recordId)
      else (br, false, "")

/-- Modelled from the spec: `BlockResults.WillValueBeAdded` — "would a
record with this boundary value still be admitted?". -/
def willValueBeAdded (br : BlockResults) (v : Int) : Bool :=
  if br.results.length < br.sizeLimit then true
  else
    match findWorst br.ascending br.results with
    | none => false
    | some w => if br.ascending then v < w.sortValue else w.sortValue < v

/-- Insert a string into a list with set semantics (embeds adding a key to
a Go `map[string]...`). -/
def insertDistinct (l : List String) (k : String) : List String :=
  if k ∈ l then l else l ++ [k]

/-- Modelled from the spec: additive merge of bucket contributions — bucket
identity is the bucket key, so merging unions the distinct keys. -/
def mergeBucketKeys (cur contrib : Option (List String)) :
    Option (List String) :=
  match contrib with
  | none => cur
  | some ks =>
    match cur with
    | none => some ks.dedup
    | some cs => some (ks.foldl insertDistinct cs)

/-! ## Bucket results (from pkg/segment/structs) -/

/-- One element of a heterogeneous (`[]interface{}`) bucket key. -/
inductive MixedVal where
  | mStr (s : String)
  | mNum (v : Int)
  deriving DecidableEq, Repr

/-- Rendering of a heterogeneous bucket-key element
(Go `fmt.Sprintf` with the `%+v` verb). -/
def renderMixed : MixedVal → String
  | .mStr s => s
  | .mNum v => toString v

/-- The dynamic type of `structs.BucketResult.BucketKey`: a scalar number,
a string, a string sequence, or a heterogeneous sequence. -/
inductive BucketKey where
  | num (v : Int)
  | strK (s : String)
  | strSeq (l : List String)
  | mixedSeq (l : List MixedVal)
  deriving DecidableEq, Repr

/-- A Go `interface{}` value as far as the embedded operations inspect it:
either a string or something else (whose string cast fails). -/
inductive GoVal where
  | strVal (s : String)
  | nonStrVal
  deriving DecidableEq, Repr

/-- One measure value inside a bucket.  `CValueEnclosure.GetValue` is
external; `badVal` embeds an enclosure whose `GetValue` call fails, `okVal`
one whose raw value is the given payload. -/
inductive StatVal where
  | okVal (v : GoVal)
  | badVal
  deriving DecidableEq, Repr

/-- `structs.BucketResult`: per-bucket measure results and the bucket key. -/
structure BucketResult where
  statRes : List (String × StatVal)
  bucketKey : BucketKey
  deriving DecidableEq, Repr

/-- `structs.AggregationResult`: the buckets of one aggregation. -/
structure AggregationResult where
  results : List BucketResult
  deriving DecidableEq, Repr

/-- `structs.BucketHolder`: one externally consumable row. -/
structure BucketHolder where
  groupByValues : List String
  measureVal : List (String × GoVal)
  deriving DecidableEq, Repr

/-! ## The query aggregation controller state (`SearchResults`) -/

/-- `SearchResults` (segresults.go lines 73-97).  The mutual-exclusion lock
serialises every operation, so each public operation is embedded as one
atomic state transition; `qid` is only used for log messages and is
dropped. -/
structure SearchResults where
  queryType : QueryType
  sAggs : Option QueryAggregators
  sizeLimit : Nat
  resultCount : Nat
  earlyExit : Bool := false
  blockResults : BlockResults
  remoteLogs : List (String × RawLog) := []
  remoteColumns : List String := []
  runningSegStat : List (Option SegStats) := []
  runningEvalStats : List (String × EvalVal) := []
  segStatsResults : Option SegStatsResultsT := none
  convertedBuckets : Option (List (String × AggregationResult)) := none
  allSSTS : List (Nat × SstMap) := []
  allErrors : List String := []
  segKeyToEnc : List (String × Nat) := []
  segEncToKey : List (Nat × String) := []
  maxSegKeyEnc : Nat := 1
  columnsOrder : List (String × Nat) := []
  statsAreFinal : Bool := false
  deriving DecidableEq

/-- Outcome of a fallible controller call: a returned `error` value, Go
`nil` (no error), or a nil-pointer / out-of-range panic. -/
inductive Outcome where
  | ok
  | errOut (msg : String)
  | nilPanic
  deriving DecidableEq, Repr

/-- External collaborators invoked by the controller whose code is outside
the verified core: the `aggregations` eval helpers, Go `strconv` number
parsing, and the JSON encoding of segment statistics.  The theorems
quantify over them. -/
structure Externals where
  computeAggEval : AggFunc → MeasureAggregator → SstMap →
    List (String × CValueEnclosure) → List (String × EvalVal) →
    Except String (List (String × CValueEnclosure) × List (String × EvalVal))
  parseFloat : String → Option Int
  parseInt : String → Option Int
  segStatsToJson : SegStats → Except String String
  marshalStats : List (String × String) → Except String String

/-- A trivial instantiation of the external collaborators, used to evaluate
the embedded operations on concrete inputs. -/
def trivialExternals : Externals where
  computeAggEval := fun _ _ _ mr es => Except.ok (mr, es)
  parseFloat := fun _ => none
  parseInt := fun _ => none
  segStatsToJson := fun _ => Except.ok ""
  marshalStats := fun _ => Except.ok ""

/-- `InitBlockResults` is external; modelled from the spec: an empty
container with the query record cap and the sort direction of the
aggregation spec, with a running aggregation allocated for each requested
histogram. -/
def initBlockResults (sizeLimit : Nat) (aggs : Option QueryAggregators) :
    BlockResults where
  results := []
  sizeLimit := sizeLimit
  ascending :=
    match aggs with
    | some a => match a.sort with | some s => s.ascending | none => true
    | none => true
  timeBuckets :=
    match aggs with
    | some a => if a.timeHistogram.isSome then some [] else none
    | none => none
  groupByBuckets :=
    match aggs with
    | some a => if a.groupByRequest.isSome then some [] else none
    | none => none

/-- `InitSearchResults` (segresults.go lines 105-138): fresh state with
counters at zero and `MaxSegKeyEnc` at 1; one running segment-statistic slot
per requested measure operation. -/
def initSearchResults (sizeLimit : Nat) (aggs : Option QueryAggregators)
    (qType : QueryType) : SearchResults where
  queryType := qType
  sAggs := aggs
  sizeLimit := sizeLimit
  resultCount := 0
  blockResults := initBlockResults sizeLimit aggs
  runningSegStat :=
    match aggs with
    | some a =>
      match a.measureOperations with
      | some mOps => List.replicate mOps.length none
      | none => []
    | none => []

/-- `InitSegmentStatsResults` (segresults.go lines 140-152). -/
def initSegmentStatsResults (sr : SearchResults)
    (mOps : List MeasureAggregator) : SearchResults :=
  { sr with
    segStatsResults := some
      { measureResults := []
        measureFunctions := mOps.map MeasureAggregator.strRepr
        groupByCols := [] } }

/-- `ShouldContinueRRCSearch` (segresults.go lines 156-158):
`resultCount <= sizeLimit`. -/
def shouldContinueRRCSearch (sr : SearchResults) : Bool :=
  sr.resultCount ≤ sr.sizeLimit

/-- `addRawLog` (segresults.go lines 182-184). -/
def addRawLogC (c : List (String × RawLog)) (id : String) (lg : RawLog) :
    List (String × RawLog) :=
  insertA c id lg

/-- `removeLog` (segresults.go lines 189-194): no-op on the empty id. -/
def removeLogC (c : List (String × RawLog)) (id : String) :
    List (String × RawLog) :=
  if id = "" then c else eraseA c id

/-- The input of `AddBlockResults`: the per-segment partial
`blockresults.BlockResults` read by the call (`GetResults()`,
`MatchedCount`, and its bucket contributions). -/
structure BlockInput where
  results : List RRC
  matchedCount : Nat
  timeBuckets : Option (List String)
  groupByBuckets : Option (List String)
  deriving DecidableEq, Repr

/-- Modelled from the spec: `BlockResults.MergeBuckets` — merges the
segment partial result bucket contributions into the running buckets
(additive, keyed by bucket key). -/
def mergeBuckets (br : BlockResults) (b : BlockInput) : BlockResults :=
  { br with
    timeBuckets := mergeBucketKeys br.timeBuckets b.timeBuckets
    groupByBuckets := mergeBucketKeys br.groupByBuckets b.groupByBuckets }

/-- One iteration of the `AddBlockResults` record loop (segresults.go lines
163-166): insert the record and drop the raw-log entry of whatever id the
insertion evicted. -/
def localAddStep (acc : BlockResults × List (String × RawLog)) (rec : RRC) :
    BlockResults × List (String × RawLog) :=
  let res := acc.1.add rec
  (res.1, removeLogC acc.2 res.2.2)

/-- `AddBlockResults` (segresults.go lines 161-170): insert every record of
the partial result, dropping the raw-log cache entry of each evicted record
id, then add the matched count (a `uint64`) and merge the bucket
contributions. -/
def addBlockResults (sr : SearchResults) (b : BlockInput) : SearchResults :=
  let st := b.results.foldl localAddStep (sr.blockResults, sr.remoteLogs)
  { sr with
    blockResults := mergeBuckets st.1 b
    remoteLogs := st.2
    resultCount := (sr.resultCount + b.matchedCount) % 2 ^ 64 }

/-- The input of `MergeRemoteRRCResults`: the peer records paired with
their raw logs (the Go call receives parallel slices), the peer bucket
contributions, the peer column set, the peer match count and the peer
early-exit flag. -/
structure RemoteInput where
  rrcs : List (RRC × RawLog)
  grpByBuckets : Option (List String)
  timeBuckets : Option (List String)
  allCols : List String
  remoteCount : Nat
  earlyExit : Bool
  deriving DecidableEq, Repr

/-- One iteration of the `MergeRemoteRRCResults` record loop
(segresults.go lines 459-465): insert the peer record; when it is accepted,
cache its raw log under its record id; then drop the raw-log entry of
whatever id the insertion evicted. -/
def remoteAddStep (acc : BlockResults × List (String × RawLog))
    (p : RRC × RawLog) : BlockResults × List (String × RawLog) :=
  let res := acc.1.add p.1
  let cache := if res.2.1 then addRawLogC acc.2 p.1.recordId p.2 else acc.2
  (res.1, removeLogC cache res.2.2)

/-- Modelled from the spec: `BlockResults.MergeRemoteBuckets` — same
additive merge as a local bucket merge. -/
def mergeRemoteBuckets (br : BlockResults) (inp : RemoteInput) : BlockResults :=
  { br with
    timeBuckets := mergeBucketKeys br.timeBuckets inp.timeBuckets
    groupByBuckets := mergeBucketKeys br.groupByBuckets inp.grpByBuckets }

/-- `MergeRemoteRRCResults` (segresults.go lines 450-476): union the peer
columns, insert each peer record (caching its raw log when accepted and
dropping the cache entry of the evicted id), absorb the peer early-exit
flag (one-way), merge the peer buckets and add the peer count. -/
def mergeRemoteRRCResults (sr : SearchResults) (inp : RemoteInput) :
    SearchResults :=
  let cols := inp.allCols.foldl insertDistinct sr.remoteColumns
  let st := inp.rrcs.foldl remoteAddStep (sr.blockResults, sr.remoteLogs)
  { sr with
    remoteColumns := cols
    blockResults := mergeRemoteBuckets st.1 inp
    remoteLogs := st.2
    earlyExit := sr.earlyExit || inp.earlyExit
    resultCount := (sr.resultCount + inp.remoteCount) % 2 ^ 64 }

/-- `SetEarlyExit` (segresults.go lines 832-834): assigns its argument to
the flag. -/
def setEarlyExit (sr : SearchResults) (exited : Bool) : SearchResults :=
  { sr with earlyExit := exited }

/-- `AddSSTMap` (segresults.go lines 196-200). -/
def addSSTMap (sr : SearchResults) (sstMap : SstMap) (skEnc : Nat) :
    SearchResults :=
  { sr with allSSTS := insertA sr.allSSTS skEnc sstMap }

/-- `GetNumBuckets` (segresults.go lines 697-711): the number of running
time buckets plus the number of running group-by buckets. -/
def getNumBuckets (sr : SearchResults) : Nat :=
  (match sr.blockResults.timeBuckets with
    | some l => l.length
    | none => 0) +
  (match sr.blockResults.groupByBuckets with
    | some l => l.length
    | none => 0)

/-- `GetAddSegEnc` (segresults.go lines 836-851): return the existing
encoding for a seen key; otherwise allocate the current `MaxSegKeyEnc`
(a `uint16`, hence the modulus on the increment) and record the pair in
both direction maps. -/
def getAddSegEnc (sr : SearchResults) (sk : String) : Nat × SearchResults :=
  match lookupA sr.segKeyToEnc sk with
  | some e => (e, sr)
  | none =>
    (sr.maxSegKeyEnc,
     { sr with
       segEncToKey := insertA sr.segEncToKey sr.maxSegKeyEnc sk
       segKeyToEnc := insertA sr.segKeyToEnc sk sr.maxSegKeyEnc
       maxSegKeyEnc := (sr.maxSegKeyEnc + 1) % 2 ^ 16 })

/-- `GetEncodedSegStats` (segresults.go lines 203-230): drop the pending
entry for the encoding; when no entry existed return no payload and no
error, otherwise encode the entry (per-column failures are skipped, a
marshal failure is returned). -/
def getEncodedSegStats (ext : Externals) (sr : SearchResults) (segKeyEnc : Nat) :
    SearchResults × Option String × Option String :=
  let retVal := lookupA sr.allSSTS segKeyEnc
  let sr1 := { sr with allSSTS := eraseA sr.allSSTS segKeyEnc }
  match retVal with
  | none => (sr1, none, none)
  | some sstMap =>
    let entries := sstMap.foldr
      (fun kv acc =>
        match ext.segStatsToJson kv.2 with
        | .ok j => (kv.1, j) :: acc
        | .error _ => acc) []
    match ext.marshalStats entries with
    | .ok bytes => (sr1, some bytes, none)
    | .error e => (sr1, none, some e)

/-- `ShouldSearchSegKey` (segresults.go lines 736-797), the early-exit
decision engine.  `none` embeds the nil-pointer panic the Go code hits when
a group-by query carries no aggregation spec or no group-by request. -/
def shouldSearchSegKey (sr : SearchResults) (startEpochMs endEpochMs : Nat)
    (snt : SearchNodeType) (otherAggsPresent timeAggs : Bool) :
    Option EarlyExitType :=
  if shouldContinueRRCSearch sr then some .eetContSearch
  else if sr.queryType = .GroupByCmd then
    match sr.sAggs with
    | none => none
    | some aggs =>
      match aggs.groupByRequest with
      | none => none
      | some gbr =>
        if getNumBuckets sr < gbr.bucketCount then some .eetContSearch
        else some .eetEarlyExit
  else if sr.queryType ≠ .RRCCmd then some .eetContSearch
  else
    let sortCont : Bool :=
      match sr.sAggs with
      | some aggs =>
        match aggs.sort with
        | some s =>
          if s.ascending then willValueBeAdded sr.blockResults startEpochMs
          else willValueBeAdded sr.blockResults endEpochMs
        | none => false
      | none => false
    if sortCont then some .eetContSearch
    else if snt = .MatchAllQuery && timeAggs && !otherAggsPresent then
      some .eetMatchAllAggs
    else if snt ≠ .MatchAllQuery && (timeAggs || otherAggsPresent) then
      some .eetContSearch
    else
      match sr.sAggs with
      | none => some .eetEarlyExit
      | some aggs =>
        if !aggs.earlyExit then some .eetContSearch
        else if aggs.timeHistogram.isSome then some .eetContSearch
        else if aggs.groupByRequest.isSome then some .eetContSearch
        else some .eetEarlyExit

/-- `ShouldSearchRange` (segresults.go lines 803-829), the companion
time-range check. -/
def shouldSearchRange (sr : SearchResults) (lowTs highTs : Nat) : Bool :=
  if sr.queryType ≠ .RRCCmd then true
  else if shouldContinueRRCSearch sr then true
  else
    match sr.sAggs with
    | none => false
    | some aggs =>
      if !aggs.earlyExit then true
      else if aggs.timeHistogram.isSome then true
      else
        match aggs.sort with
        | some s =>
          if s.ascending then willValueBeAdded sr.blockResults lowTs
          else willValueBeAdded sr.blockResults highTs
        | none => false

/-! ## The running statistics merger

`segread.GetSegMin` and friends live outside the verified core; they are
modelled from the spec (section 4.2): pairwise min/max, additive sum/count,
running (min, max) for range, exact set union for cardinality, bounded
concatenation for list.  Each merger returns the updated running statistic
(the Go functions update it in place) together with the merged value. -/

/-- The unique-string set of a column statistic (empty when absent). -/
def strsOf (s : SegStats) : Finset String :=
  match s.stringStats with
  | some ss => ss.strSet
  | none => ∅

/-- The raw observed-value list of a column statistic (empty when absent). -/
def strListOf (s : SegStats) : List String :=
  match s.stringStats with
  | some ss => ss.strList
  | none => []

/-- Modelled from the spec: `segread.GetSegMin` — pairwise min, first
contributor initialises. -/
def getSegMin (running : Option SegStats) (curr : SegStats) :
    Option SegStats × Except String Int :=
  match running with
  | none => (none, .ok curr.minVal)
  | some r =>
    let m := min r.minVal curr.minVal
    (some { r with minVal := m }, .ok m)

/-- Modelled from the spec: `segread.GetSegMax` — pairwise max. -/
def getSegMax (running : Option SegStats) (curr : SegStats) :
    Option SegStats × Except String Int :=
  match running with
  | none => (none, .ok curr.maxVal)
  | some r =>
    let m := max r.maxVal curr.maxVal
    (some { r with maxVal := m }, .ok m)

/-- Modelled from the spec: `segread.GetSegRange` — running (min, max)
pair, value max − min. -/
def getSegRange (running : Option SegStats) (curr : SegStats) :
    Option SegStats × Except String Int :=
  match running with
  | none => (none, .ok (curr.maxVal - curr.minVal))
  | some r =>
    let lo := min r.minVal curr.minVal
    let hi := max r.maxVal curr.maxVal
    (some { r with minVal := lo, maxVal := hi }, .ok (hi - lo))

/-- Modelled from the spec: `segread.GetSegCardinality` — exact unique-value
set merged by union, value the set size. -/
def getSegCardinality (running : Option SegStats) (curr : SegStats) :
    Option SegStats × Except String Int :=
  match running with
  | none => (none, .ok (strsOf curr).card)
  | some r =>
    let u := strsOf r ∪ strsOf curr
    (some { r with stringStats := some { strSet := u, strList := strListOf r } },
     .ok u.card)

/-- Modelled from the spec: `segread.GetSegCount` — additive count
(a `uint64`). -/
def getSegCount (running : Option SegStats) (curr : SegStats) :
    Option SegStats × Except String Int :=
  match running with
  | none => (none, .ok curr.cnt)
  | some r =>
    let c := (r.cnt + curr.cnt) % 2 ^ 64
    (some { r with cnt := c }, .ok c)

/-- Modelled from the spec: `segread.GetSegSum` — additive sum. -/
def getSegSum (running : Option SegStats) (curr : SegStats) :
    Option SegStats × Except String Int :=
  match running with
  | none => (none, .ok curr.sumVal)
  | some r =>
    let s := r.sumVal + curr.sumVal
    (some { r with sumVal := s }, .ok s)

/-- Modelled from the spec: `segread.GetSegAvg` — running (sum, count)
pair, value sum / count (integer-abstracted). -/
def getSegAvg (running : Option SegStats) (curr : SegStats) :
    Option SegStats × Except String Int :=
  match running with
  | none => (none, .ok (curr.sumVal / (curr.cnt : Int)))
  | some r =>
    let s := r.sumVal + curr.sumVal
    let c := (r.cnt + curr.cnt) % 2 ^ 64
    (some { r with sumVal := s, cnt := c }, .ok (s / (c : Int)))

/-- The cap of the `List` aggregate ("capped at an implementation-defined
maximum to bound memory"). -/
def segListMaxSize : Nat := 100

/-- Modelled from the spec: `segread.GetSegList` — bounded concatenation of
raw observed values, no de-duplication. -/
def getSegList (running : Option SegStats) (curr : SegStats) :
    Option SegStats × Except String CValueEnclosure :=
  let rl := match running with
    | some r => strListOf r
    | none => []
  let l := (rl ++ strListOf curr).take segListMaxSize
  (match running with
    | some r =>
      some { r with stringStats := some { strSet := strsOf r, strList := l } }
    | none => none,
   .ok (.strSliceV l))

/-- The switch dispatch of `UpdateSegmentStats` for the plain (non-eval)
numeric measures. -/
def plainMerger : AggFunc → Option (Option SegStats → SegStats →
    Option SegStats × Except String Int)
  | .minFn => some getSegMin
  | .maxFn => some getSegMax
  | .rangeFn => some getSegRange
  | .cardinalityFn => some getSegCardinality
  | .countFn => some getSegCount
  | .sumFn => some getSegSum
  | .avgFn => some getSegAvg
  | _ => none

/-- The eval-statement path shared by the supported measure branches of
`UpdateSegmentStats`: the external `aggregations` helper updates the output
map and the eval-accumulator map, or fails the call. -/
def evalUpdate (ext : Externals) (sr : SearchResults) (f : AggFunc)
    (mA : MeasureAggregator) (sstMap : SstMap) :
    Except (SearchResults × Outcome) SearchResults :=
  match sr.segStatsResults with
  | none => .error (sr, .nilPanic)
  | some ssr =>
    match ext.computeAggEval f mA sstMap ssr.measureResults
        sr.runningEvalStats with
    | .error e => .error (sr, .errOut e)
    | .ok res =>
      .ok { sr with
        segStatsResults := some { ssr with measureResults := res.1 }
        runningEvalStats := res.2 }

/-- The post-switch tail of a plain numeric branch (segresults.go lines
398-415): abort on a merge error, initialise the running slot on the first
contribution, convert the merged value and store it under the measure
name. -/
def plainNumericUpdate (sr : SearchResults) (idx : Nat) (mA : MeasureAggregator)
    (currSst : Option SegStats)
    (getFn : Option SegStats → SegStats → Option SegStats × Except String Int) :
    Except (SearchResults × Outcome) SearchResults :=
  match currSst with
  | none => .error (sr, .nilPanic)
  | some c =>
    match sr.runningSegStat.get? idx with
    | none => .error (sr, .nilPanic)
    | some running =>
      match getFn running c with
      | (_, .error e) => .error (sr, .errOut e)
      | (updated, .ok v) =>
        let newRunning := if running.isNone then some c else updated
        let sr1 := { sr with runningSegStat := sr.runningSegStat.set idx newRunning }
        match sr1.segStatsResults with
        | none => .error (sr1, .nilPanic)
        | some ssr =>
          .ok { sr1 with
            segStatsResults := some { ssr with
              measureResults := insertA ssr.measureResults mA.strRepr (.intV v) } }

/-- The `Values` branch of `UpdateSegmentStats` (segresults.go lines
328-375), plain form: merge the segment string set into the running
unique-string set kept in the eval-accumulator map (and into the running
segment statistic when one exists), then store the lexicographically sorted
unique strings under the measure name. -/
def valuesPlainUpdate (sr : SearchResults) (idx : Nat) (mA : MeasureAggregator)
    (currSst : Option SegStats) (strSet : Finset String) :
    Except (SearchResults × Outcome) SearchResults :=
  let aggName := mA.strRepr
  let s1 := match currSst with
    | some c =>
      match c.stringStats with
      | some ss => strSet ∪ ss.strSet
      | none => strSet
    | none => strSet
  match sr.runningSegStat.get? idx with
  | none => .error (sr, .nilPanic)
  | some none =>
    match sr.segStatsResults with
    | none => .error (sr, .nilPanic)
    | some ssr =>
      .ok { sr with
        runningEvalStats := insertA sr.runningEvalStats aggName (.strSetV s1)
        segStatsResults := some { ssr with
          measureResults := insertA ssr.measureResults aggName
            (.strSliceV (s1.sort (· ≤ ·))) } }
  | some (some rs) =>
    match rs.stringStats with
    | none => .error (sr, .nilPanic)
    | some ss =>
      let s2 := s1 ∪ ss.strSet
      match sr.segStatsResults with
      | none => .error (sr, .nilPanic)
      | some ssr =>
        .ok { sr with
          runningSegStat := sr.runningSegStat.set idx
            (some { rs with stringStats := some { ss with strSet := s2 } })
          runningEvalStats := insertA sr.runningEvalStats aggName (.strSetV s2)
          segStatsResults := some { ssr with
            measureResults := insertA ssr.measureResults aggName
              (.strSliceV (s2.sort (· ≤ ·))) } }

/-- The loop body of `UpdateSegmentStats` (segresults.go lines 241-415),
iterating over the requested measure operations with their slot index.
The `unsupported` default branch mirrors the source exactly: it logs and
executes `return err` — but `err` still holds its zero value `nil` at that
point, so the call stops processing yet reports no error. -/
def updateStatsLoop (ext : Externals) (sstMap : SstMap) :
    SearchResults → Nat → List MeasureAggregator → SearchResults × Outcome
  | sr, _, [] => (sr, .ok)
  | sr, idx, mA :: rest =>
    if sstMap.isEmpty then updateStatsLoop ext sstMap sr (idx + 1) rest
    else
      let aggCol :=
        if mA.measureFunc = .countFn ∧ mA.measureCol = "*" then
          match sstMap.head? with
          | some p => p.1
          | none => mA.measureCol
        else mA.measureCol
      let currSst := lookupA sstMap aggCol
      if currSst.isNone ∧ mA.valueColRequest = none then
        updateStatsLoop ext sstMap sr (idx + 1) rest
      else
        match mA.measureFunc with
        | .valuesFn =>
          let aggName := mA.strRepr
          match lookupA sr.runningEvalStats aggName with
          | some .otherV => (sr, .errOut "can not convert strSet")
          | entry =>
            let strSet : Finset String :=
              match entry with
              | some (.strSetV s) => s
              | _ => ∅
            let sr1 :=
              if entry.isNone then
                { sr with runningEvalStats :=
                    insertA sr.runningEvalStats aggName (.strSetV ∅) }
              else sr
            if mA.valueColRequest.isSome then
              match evalUpdate ext sr1 .valuesFn mA sstMap with
              | .error out => out
              | .ok sr2 => updateStatsLoop ext sstMap sr2 (idx + 1) rest
            else
              match valuesPlainUpdate sr1 idx mA currSst strSet with
              | .error out => out
              | .ok sr2 => updateStatsLoop ext sstMap sr2 (idx + 1) rest
        | .listFn =>
          if mA.valueColRequest.isSome then
            match evalUpdate ext sr .listFn mA sstMap with
            | .error out => out
            | .ok sr2 => updateStatsLoop ext sstMap sr2 (idx + 1) rest
          else
            match currSst with
            | none => (sr, .nilPanic)
            | some c =>
              match sr.runningSegStat.get? idx with
              | none => (sr, .nilPanic)
              | some running =>
                match getSegList running c with
                | (_, .error e) => (sr, .errOut e)
                | (updated, .ok enc) =>
                  match sr.segStatsResults with
                  | none => (sr, .nilPanic)
                  | some ssr =>
                    let newRunning := if running.isNone then some c else updated
                    let sr2 := { sr with
                      runningSegStat := sr.runningSegStat.set idx newRunning
                      segStatsResults := some { ssr with
                        measureResults :=
                          insertA ssr.measureResults mA.strRepr enc } }
                    updateStatsLoop ext sstMap sr2 (idx + 1) rest
        | .unsupported => (sr, .ok)
        | f =>
          if mA.valueColRequest.isSome then
            match evalUpdate ext sr f mA sstMap with
            | .error out => out
            | .ok sr2 => updateStatsLoop ext sstMap sr2 (idx + 1) rest
          else
            match plainMerger f with
            | none => (sr, .ok)
            | some getFn =>
              match plainNumericUpdate sr idx mA currSst getFn with
              | .error out => out
              | .ok sr2 => updateStatsLoop ext sstMap sr2 (idx + 1) rest

/-- `UpdateSegmentStats` (segresults.go lines 238-417). -/
def updateSegmentStats (ext : Externals) (sr : SearchResults) (sstMap : SstMap)
    (measureOps : List MeasureAggregator) : SearchResults × Outcome :=
  updateStatsLoop ext sstMap sr 0 measureOps

/-! ## Finalisation from a coordinator result -/

/-- `structs.NodeResult`, restricted to the fields consumed by
`SetFinalStatsFromNodeResult`. -/
structure NodeResult where
  columnsOrder : List (String × Nat)
  groupByCols : List String
  histogram : List (String × AggregationResult)
  measureResults : List BucketHolder
  measureFunctions : List String
  deriving DecidableEq, Repr

/-- The per-measure-function loop of `SetFinalStatsFromNodeResult`
(segresults.go lines 657-689): look the function up in the single measure
holder, require a string value, strip commas and classify the value as
float, integer or plain string.  On failure it reports the error together
with the entries built so far (which the Go code has already stored). -/
def buildFinalMeasures (ext : Externals) (holder : BucketHolder) :
    List String → List (String × CValueEnclosure) →
    Except (String × List (String × CValueEnclosure))
      (List (String × CValueEnclosure))
  | [], acc => .ok acc
  | mf :: rest, acc =>
    match lookupA holder.measureVal mf with
    | none => .error ("not found in MeasureVal", acc)
    | some .nonStrVal => .error ("unexpected type", acc)
    | some (.strVal s) =>
      let cleaned := s.replace "," ""
      let enc : CValueEnclosure :=
        match ext.parseFloat cleaned with
        | some f => .floatV f
        | none =>
          match ext.parseInt cleaned with
          | some i => .intV i
          | none => .strV cleaned
      buildFinalMeasures ext holder rest (insertA acc mf enc)

/-- `SetFinalStatsFromNodeResult` (segresults.go lines 635-695): fails
immediately when the stats are already final; otherwise copies the
coordinator result into the local materialised state and sets
`statsAreFinal`. -/
def setFinalStatsFromNodeResult (ext : Externals) (sr : SearchResults)
    (nr : NodeResult) : SearchResults × Outcome :=
  if sr.statsAreFinal then
    (sr, .errOut "stats are already final")
  else
    let sr1 := { sr with columnsOrder := nr.columnsOrder }
    if 0 < nr.groupByCols.length then
      ({ sr1 with convertedBuckets := some nr.histogram, statsAreFinal := true },
       .ok)
    else
      match nr.measureResults with
      | [holder] =>
        match sr1.segStatsResults with
        | none => (sr1, .nilPanic)
        | some ssr =>
          let base := { ssr with
            measureFunctions := nr.measureFunctions
            measureResults := []
            groupByCols := [] }
          match buildFinalMeasures ext holder nr.measureFunctions [] with
          | .error res =>
            let partialRes := { base with measureResults := res.2 }
            ({ sr1 with segStatsResults := some partialRes }, .errOut res.1)
          | .ok res =>
            ({ sr1 with
               segStatsResults := some { base with measureResults := res }
               statsAreFinal := true },
             .ok)
      | _ => (sr1, .errOut "unexpected MeasureResults length")

/-! ## The bucket materializer -/

/-- The per-bucket measure-value collection of
`CreateMeasResultsFromAggResults` (segresults.go lines 889-898): values
whose `GetValue` fails are skipped; every successfully read measure name is
recorded in the running set of measure-function names. -/
def collectMeasureVals (statRes : List (String × StatVal))
    (mfuncs : List String) : List (String × GoVal) × List String :=
  statRes.foldl
    (fun acc p =>
      match p.2 with
      | .badVal => acc
      | .okVal v => (insertA acc.1 p.1 v, insertDistinct acc.2 p.1))
    ([], mfuncs)

/-- The group-by values contributed by a bucket key, together with how much
the key advances the `added` counter (one per scalar or string, one per
element of a composite key). -/
def bucketKeyVals : BucketKey → List String × Int
  | .num v => ([toString v], 1)
  | .strK s => ([s], 1)
  | .strSeq l => (l, l.length)
  | .mixedSeq l => (l.map renderMixed, l.length)

/-- The inner loop of `CreateMeasResultsFromAggResults` (segresults.go
lines 886-929) over one aggregation's buckets.  The running state is
(rows, added, measure-function names); the `added >= limit` check breaks
out of this loop after the measure values of the current bucket have been
collected but before its row is appended. -/
def createInner (limit : Int) :
    List BucketResult → List BucketHolder × Int × List String →
    List BucketHolder × Int × List String
  | [], st => st
  | bv :: rest, st =>
    let cm := collectMeasureVals bv.statRes st.2.2
    if limit ≤ st.2.1 then (st.1, st.2.1, cm.2)
    else
      let kv := bucketKeyVals bv.bucketKey
      createInner limit rest
        (st.1 ++ [{ groupByValues := kv.1, measureVal := cm.1 }],
         st.2.1 + kv.2, cm.2)

/-- `CreateMeasResultsFromAggResults` (segresults.go lines 879-940):
returns the rows, the distinct measure-function names and the final
`added` counter. -/
def createMeasResultsFromAggResults (limit : Int)
    (aggRes : List (String × AggregationResult)) :
    List BucketHolder × List String × Int :=
  let st := aggRes.foldl (fun st p => createInner limit p.2.results st)
    ([], 0, [])
  (st.1, st.2.2, st.2.1)

/-! ## Operation sequences on a `SearchResults` instance -/

/-- The mutating operations over which the monotonicity and cache-domain
invariants are stated. -/
inductive Op where
  | addBlock (b : BlockInput)
  | mergeRemote (inp : RemoteInput)
  | setEarly (v : Bool)
  deriving DecidableEq, Repr

/-- Apply one operation. -/
def applyOp (sr : SearchResults) : Op → SearchResults
  | .addBlock b => addBlockResults sr b
  | .mergeRemote inp => mergeRemoteRRCResults sr inp
  | .setEarly v => setEarlyExit sr v

/-- Apply a sequence of operations in order. -/
def applyOps (sr : SearchResults) (ops : List Op) : SearchResults :=
  ops.foldl applyOp sr

/-! ## Claim C1: one-way early-exit flag -/

/-- `AddBlockResults` leaves the early-exit flag untouched. -/
theorem addBlockResults_earlyExit (sr : SearchResults) (b : BlockInput) :
    (addBlockResults sr b).earlyExit = sr.earlyExit := rfl

/-- `MergeRemoteRRCResults` only ever raises the early-exit flag. -/
theorem mergeRemoteRRCResults_earlyExit (sr : SearchResults)
    (inp : RemoteInput) :
    (mergeRemoteRRCResults sr inp).earlyExit =
      (sr.earlyExit || inp.earlyExit) := rfl

/-- Counterexample to claim C1 as stated: `SetEarlyExit` assigns its
argument to the flag, so the operation sequence `[SetEarlyExit(false)]`
drives an instance whose `earlyExit` flag is `true` back to `false`. -/
theorem setEarlyExit_clears_earlyExit_counterexample :
    (setEarlyExit (initSearchResults 0 none .RRCCmd) true).earlyExit = true ∧
    (applyOps (setEarlyExit (initSearchResults 0 none .RRCCmd) true)
        [Op.setEarly false]).earlyExit = false := by
  exact ⟨rfl, rfl⟩

/-- Claim C1 (amended): the `earlyExit` flag is one-way under
`AddBlockResults` and `MergeRemoteRRCResults`; `SetEarlyExit` assigns its
argument directly, so once the flag is true it stays true for every
operation sequence that never calls `SetEarlyExit(false)`. -/
theorem earlyExit_oneWay (sr : SearchResults) (ops : List Op)
    (h1 : sr.earlyExit = true)
    (h2 : ∀ op ∈ ops, op ≠ Op.setEarly false) :
    (applyOps sr ops).earlyExit = true := by
  induction ops generalizing sr with
  | nil => exact h1
  | cons op rest ih =>
    have hop := h2 op (List.mem_cons_self op rest)
    have hrest : ∀ o ∈ rest, o ≠ Op.setEarly false :=
      fun o ho => h2 o (List.mem_cons_of_mem op ho)
    cases op with
    | addBlock b =>
      exact ih (addBlockResults sr b) (by rw [addBlockResults_earlyExit]; exact h1) hrest
    | mergeRemote inp =>
      exact ih (mergeRemoteRRCResults sr inp)
        (by rw [mergeRemoteRRCResults_earlyExit, h1, Bool.true_or]) hrest
    | setEarly v =>
      cases v with
      | false => exact absurd rfl hop
      | true => exact ih (setEarlyExit sr true) rfl hrest

/-- Witness for `earlyExit_oneWay` at a concrete state and sequence. -/
theorem earlyExit_oneWay_witness :
    (applyOps (setEarlyExit (initSearchResults 0 none .RRCCmd) true)
        [Op.setEarly true, Op.addBlock ⟨[], 3, none, none⟩]).earlyExit = true := by
  refine earlyExit_oneWay _ _ rfl ?_
  intro op hop
  simp only [List.mem_cons, List.not_mem_nil, or_false] at hop
  rcases hop with h | h <;> subst h <;> decide

/-! ## Claim C2: ShouldSearchRange when early exit is structurally disabled -/

/-- Counterexample to claim C2 as stated: a raw-record query whose result
count exceeds the size limit and whose aggregation spec is nil makes
`ShouldSearchRange` return `false` (skip), not `true`. -/
theorem shouldSearchRange_nilAggs_counterexample :
    (addBlockResults (initSearchResults 2 none .RRCCmd)
        ⟨[], 5, none, none⟩).sAggs = none ∧
    (addBlockResults (initSearchResults 2 none .RRCCmd)
        ⟨[], 5, none, none⟩).sizeLimit <
      (addBlockResults (initSearchResults 2 none .RRCCmd)
        ⟨[], 5, none, none⟩).resultCount ∧
    shouldSearchRange
      (addBlockResults (initSearchResults 2 none .RRCCmd) ⟨[], 5, none, none⟩)
      0 10 = false := by
  refine ⟨rfl, ?_, rfl⟩
  show (2 : Nat) < 5 % 2 ^ 64
  norm_num

/-- Claim C2 (amended): `ShouldSearchRange` returns `true` (always search)
when an aggregation spec is present with its early-exit flag off, and when
an aggregation spec is present requesting a time histogram; but with no
aggregation spec at all, a raw-record query whose result count exceeds the
size limit returns `false` (skip). -/
theorem shouldSearchRange_structural (sr : SearchResults) (lowTs highTs : Nat) :
    (∀ aggs, sr.sAggs = some aggs → aggs.earlyExit = false →
      shouldSearchRange sr lowTs highTs = true) ∧
    (∀ aggs, sr.sAggs = some aggs → aggs.timeHistogram.isSome →
      shouldSearchRange sr lowTs highTs = true) ∧
    (sr.queryType = .RRCCmd → sr.sAggs = none →
      shouldContinueRRCSearch sr = false →
      shouldSearchRange sr lowTs highTs = false) := by
  refine ⟨?_, ?_, ?_⟩
  · intro aggs hs hee
    unfold shouldSearchRange
    split
    · rfl
    · split
      · rfl
      · rw [hs]
        simp [hee]
  · intro aggs hs hth
    unfold shouldSearchRange
    split
    · rfl
    · split
      · rfl
      · rw [hs]
        by_cases hee : aggs.earlyExit <;> simp [hee, hth]
  · intro hqt hs hcont
    unfold shouldSearchRange
    rw [hs, hqt, hcont]
    simp

/-- Witness for `shouldSearchRange_structural`: all three cases discharged
at concrete states. -/
theorem shouldSearchRange_structural_witness :
    (shouldSearchRange (initSearchResults 2
      (some ⟨false, none, none, none, none⟩) .RRCCmd) 0 10 = true) ∧
    (shouldSearchRange (initSearchResults 2
      (some ⟨true, none, some ⟨"t"⟩, none, none⟩) .RRCCmd) 0 10 = true) ∧
    (shouldSearchRange (addBlockResults (initSearchResults 2 none .RRCCmd)
      ⟨[], 5, none, none⟩) 0 10 = false) := by
  refine ⟨?_, ?_, ?_⟩
  · exact (shouldSearchRange_structural _ 0 10).1 _ rfl rfl
  · exact (shouldSearchRange_structural _ 0 10).2.1 _ rfl rfl
  · refine (shouldSearchRange_structural _ 0 10).2.2 rfl rfl ?_
    show decide ((5 : Nat) % 2 ^ 64 ≤ 2) = false
    norm_num

/-! ## Claim C4: ShouldSearchSegKey for a group-by query -/

/-- Claim C4: for a group-by query whose result count exceeds the size
limit, `ShouldSearchSegKey` returns `ContinueScan` exactly when the number
of distinct running buckets is below the requested bucket-count target, and
`SkipEntirely` (early exit) otherwise. -/
theorem shouldSearchSegKey_groupby (sr : SearchResults)
    (startMs endMs : Nat) (snt : SearchNodeType) (oa ta : Bool)
    (aggs : QueryAggregators) (gbr : GroupByRequest)
    (h1 : sr.queryType = .GroupByCmd)
    (h2 : sr.sAggs = some aggs)
    (h3 : aggs.groupByRequest = some gbr)
    (h4 : sr.sizeLimit < sr.resultCount) :
    shouldSearchSegKey sr startMs endMs snt oa ta =
      some (if getNumBuckets sr < gbr.bucketCount then .eetContSearch
            else .eetEarlyExit) := by
  have hcont : shouldContinueRRCSearch sr = false := by
    unfold shouldContinueRRCSearch
    simpa using Nat.not_le.mpr h4
  unfold shouldSearchSegKey
  rw [hcont, h1, h2]
  simp only [h3]
  by_cases hb : getNumBuckets sr < gbr.bucketCount <;> simp [hb]

/-- Witness for `shouldSearchSegKey_groupby`: with a bucket-count target of
3, a state with 2 distinct buckets continues the scan and a state with 3
distinct buckets exits early (the spec scenario). -/
theorem shouldSearchSegKey_groupby_witness :
    shouldSearchSegKey
      { queryType := .GroupByCmd
        sAggs := some ⟨true, none, none, some ⟨"g", ["g"], 3⟩, none⟩
        sizeLimit := 0
        resultCount := 1
        blockResults := ⟨[], 0, true, none, some ["a", "b"]⟩ }
      0 0 .ColumnValueQuery false false = some .eetContSearch ∧
    shouldSearchSegKey
      { queryType := .GroupByCmd
        sAggs := some ⟨true, none, none, some ⟨"g", ["g"], 3⟩, none⟩
        sizeLimit := 0
        resultCount := 1
        blockResults := ⟨[], 0, true, none, some ["a", "b", "c"]⟩ }
      0 0 .ColumnValueQuery false false = some .eetEarlyExit := by
  constructor
  · rw [shouldSearchSegKey_groupby _ 0 0 .ColumnValueQuery false false
      ⟨true, none, none, some ⟨"g", ["g"], 3⟩, none⟩ ⟨"g", ["g"], 3⟩
      rfl rfl rfl (by norm_num)]
    rfl
  · rw [shouldSearchSegKey_groupby _ 0 0 .ColumnValueQuery false false
      ⟨true, none, none, some ⟨"g", ["g"], 3⟩, none⟩ ⟨"g", ["g"], 3⟩
      rfl rfl rfl (by norm_num)]
    rfl

/-! ## Claim C10: GetEncodedSegStats removal and missing-entry behaviour -/

/-- Claim C10: `GetEncodedSegStats` removes the pending statistics entry
for the encoding as part of the call; when no entry exists it returns no
payload and no error with the state unchanged; hence fetching the same
encoding twice yields the payload at most once and the second fetch is the
error-free empty result. -/
theorem getEncodedSegStats_spec (ext : Externals) (sr : SearchResults)
    (segKeyEnc : Nat) :
    lookupA (getEncodedSegStats ext sr segKeyEnc).1.allSSTS segKeyEnc = none ∧
    (lookupA sr.allSSTS segKeyEnc = none →
      getEncodedSegStats ext sr segKeyEnc = (sr, none, none)) ∧
    getEncodedSegStats ext (getEncodedSegStats ext sr segKeyEnc).1 segKeyEnc =
      ((getEncodedSegStats ext sr segKeyEnc).1, none, none) := by
  have hstate : (getEncodedSegStats ext sr segKeyEnc).1.allSSTS =
      eraseA sr.allSSTS segKeyEnc := by
    unfold getEncodedSegStats
    cases h : lookupA sr.allSSTS segKeyEnc with
    | none => rfl
    | some sstMap =>
      simp only []
      cases ext.marshalStats (sstMap.foldr
        (fun kv acc =>
          match ext.segStatsToJson kv.2 with
          | .ok j => (kv.1, j) :: acc
          | .error _ => acc) []) <;> rfl
  have hmissing : ∀ s : SearchResults, lookupA s.allSSTS segKeyEnc = none →
      getEncodedSegStats ext s segKeyEnc = (s, none, none) := by
    intro s hs
    unfold getEncodedSegStats
    rw [hs, eraseA_of_lookupA_none s.allSSTS segKeyEnc hs]
  have hgone : lookupA (getEncodedSegStats ext sr segKeyEnc).1.allSSTS
      segKeyEnc = none := by
    rw [hstate]
    exact lookupA_eraseA_self sr.allSSTS segKeyEnc
  exact ⟨hgone, hmissing sr, hmissing _ hgone⟩

/-- Witness for `getEncodedSegStats_spec` at a concrete state holding one
pending entry. -/
theorem getEncodedSegStats_spec_witness :
    lookupA (getEncodedSegStats trivialExternals
      (addSSTMap (initSearchResults 0 none .SegmentStatsCmd)
        [("col", ⟨1, 0, 0, 0, none⟩)] 1) 1).1.allSSTS 1 = none ∧
    getEncodedSegStats trivialExternals
      (getEncodedSegStats trivialExternals
        (addSSTMap (initSearchResults 0 none .SegmentStatsCmd)
          [("col", ⟨1, 0, 0, 0, none⟩)] 1) 1).1 1 =
      ((getEncodedSegStats trivialExternals
        (addSSTMap (initSearchResults 0 none .SegmentStatsCmd)
          [("col", ⟨1, 0, 0, 0, none⟩)] 1) 1).1, none, none) := by
  exact ⟨(getEncodedSegStats_spec trivialExternals _ 1).1,
         (getEncodedSegStats_spec trivialExternals _ 1).2.2⟩

/-! ## Claim C6: finalize-once -/

/-- Claim C6: when `statsAreFinal` is already set,
`SetFinalStatsFromNodeResult` returns an error and leaves the state
unchanged; conversely every error-free call sets `statsAreFinal`, so
finalisation succeeds at most once. -/
theorem setFinalStats_finalize_once (ext : Externals) (sr : SearchResults)
    (nr : NodeResult) :
    (sr.statsAreFinal = true →
      setFinalStatsFromNodeResult ext sr nr =
        (sr, .errOut "stats are already final")) ∧
    ((setFinalStatsFromNodeResult ext sr nr).2 = .ok →
      (setFinalStatsFromNodeResult ext sr nr).1.statsAreFinal = true) := by
  constructor
  · intro hfin
    unfold setFinalStatsFromNodeResult
    rw [hfin]
    rfl
  · intro hok
    unfold setFinalStatsFromNodeResult at hok ⊢
    by_cases hfin : sr.statsAreFinal
    · simp [hfin] at hok
    · simp only [hfin, if_neg, Bool.false_eq_true, if_false] at hok ⊢
      by_cases hg : 0 < nr.groupByCols.length
      · simp [hg]
      · simp only [hg, if_false] at hok ⊢
        cases hm : nr.measureResults with
        | nil => simp_all
        | cons holder rest =>
          cases rest with
          | cons h2 t2 => simp_all
          | nil =>
            cases hss : sr.segStatsResults with
            | none => simp_all
            | some ssr =>
              cases hb : buildFinalMeasures ext holder nr.measureFunctions [] with
              | error res => simp_all
              | ok res => simp_all

/-- Witness for `setFinalStats_finalize_once`: the already-final half at a
concrete final state, and the success half at a concrete fresh state. -/
theorem setFinalStats_finalize_once_witness :
    setFinalStatsFromNodeResult trivialExternals
      { queryType := .RRCCmd
        sAggs := none
        sizeLimit := 0
        resultCount := 0
        blockResults := ⟨[], 0, true, none, none⟩
        statsAreFinal := true }
      ⟨[], ["g"], [], [], []⟩ =
      ({ queryType := .RRCCmd
         sAggs := none
         sizeLimit := 0
         resultCount := 0
         blockResults := ⟨[], 0, true, none, none⟩
         statsAreFinal := true }, .errOut "stats are already final") ∧
    (setFinalStatsFromNodeResult trivialExternals
      (initSearchResults 0 none .RRCCmd)
      ⟨[], ["g"], [], [], []⟩).1.statsAreFinal = true := by
  constructor
  · exact (setFinalStats_finalize_once trivialExternals _ _).1 rfl
  · exact (setFinalStats_finalize_once trivialExternals _ _).2 rfl

/-! ## Claim C3: unsupported measure functions -/

/-- Claim C3 (evidence of the code bug): for a measure operation whose
aggregation function is outside the nine supported ones,
`UpdateSegmentStats` reaches its `default` branch, which logs an error but
executes `return err` while `err` still holds `nil` — so the call returns
no error (and silently stops processing).  The claim (and the spec) say
the whole call must fail. -/
theorem updateSegmentStats_unsupported_no_error :
    updateSegmentStats trivialExternals
      (initSegmentStatsResults
        (initSearchResults 0
          (some ⟨true, none, none, none, some [⟨.unsupported, "col", none⟩]⟩)
          .SegmentStatsCmd)
        [⟨.unsupported, "col", none⟩])
      [("col", ⟨1, 0, 0, 0, none⟩)]
      [⟨.unsupported, "col", none⟩] =
    (initSegmentStatsResults
      (initSearchResults 0
        (some ⟨true, none, none, none, some [⟨.unsupported, "col", none⟩]⟩)
        .SegmentStatsCmd)
      [⟨.unsupported, "col", none⟩], Outcome.ok) := by
  rfl

/-! ## Claim C7: the row limit of the bucket materializer -/

/-- Invariant of the materializer loops: the number of emitted rows is
bounded by the `added` counter and by the row limit. -/
def MaterializerInv (limit : Int) (st : List BucketHolder × Int × List String) :
    Prop :=
  (st.1.length : Int) ≤ st.2.1 ∧ (st.1.length : Int) ≤ limit

theorem createInner_inv (limit : Int) (l : List BucketResult)
    (st : List BucketHolder × Int × List String)
    (hk : ∀ bv ∈ l, 1 ≤ (bucketKeyVals bv.bucketKey).2)
    (hinv : MaterializerInv limit st) :
    MaterializerInv limit (createInner limit l st) := by
  induction l generalizing st with
  | nil => exact hinv
  | cons bv rest ih =>
    obtain ⟨h1, h2⟩ := hinv
    unfold createInner
    by_cases hbr : limit ≤ st.2.1
    · simp only [hbr, if_true, ite_true]
      exact ⟨h1, h2⟩
    · simp only [hbr, if_false]
      refine ih _ (fun b hb => hk b (List.mem_cons_of_mem bv hb)) ?_
      have hkey := hk bv (List.mem_cons_self bv rest)
      constructor
      · simp only [List.length_append, List.length_cons, List.length_nil]
        push_cast
        omega
      · simp only [List.length_append, List.length_cons, List.length_nil]
        push_cast
        omega

theorem createFold_inv (limit : Int) (aggRes : List (String × AggregationResult))
    (st : List BucketHolder × Int × List String)
    (hk : ∀ p ∈ aggRes, ∀ bv ∈ p.2.results, 1 ≤ (bucketKeyVals bv.bucketKey).2)
    (hinv : MaterializerInv limit st) :
    MaterializerInv limit
      (aggRes.foldl (fun st p => createInner limit p.2.results st) st) := by
  induction aggRes generalizing st with
  | nil => exact hinv
  | cons p rest ih =>
    exact ih _ (fun q hq => hk q (List.mem_cons_of_mem p hq))
      (createInner_inv limit p.2.results st
        (hk p (List.mem_cons_self p rest)) hinv)

/-- Counterexample to claim C7 as stated: with row limit 1, two buckets
whose keys are empty composite sequences produce two output rows — an
empty key contributes nothing to the `added` counter, yet its row is still
appended, so the limit is exceeded. -/
theorem createMeasResults_limit_counterexample :
    ¬ ((createMeasResultsFromAggResults 1
        [("a", ⟨[⟨[], .strSeq []⟩, ⟨[], .strSeq []⟩]⟩)]).1.length ≤ 1) := by
  decide

/-- Claim C7 (amended): the bucket materializer emits at most `limit` rows
for every non-negative limit and every bucket map in which each bucket key
contributes at least one group-by value (every scalar or string key, and
every non-empty composite key, does); a bucket whose key is an empty
composite sequence is appended as a row without advancing the counter, so
only such degenerate keys can exceed the limit. -/
theorem createMeasResults_respects_limit (limit : Int)
    (aggRes : List (String × AggregationResult))
    (hlim : 0 ≤ limit)
    (hk : ∀ p ∈ aggRes, ∀ bv ∈ p.2.results, 1 ≤ (bucketKeyVals bv.bucketKey).2) :
    ((createMeasResultsFromAggResults limit aggRes).1.length : Int) ≤ limit := by
  have h := createFold_inv limit aggRes ([], 0, []) hk
    ⟨le_refl 0, by simpa using hlim⟩
  exact h.2

/-- Witness for `createMeasResults_respects_limit`: two scalar-keyed
buckets and one composite-keyed bucket against a limit of 2 yield at most
two rows. -/
theorem createMeasResults_respects_limit_witness :
    ((createMeasResultsFromAggResults 2
      [("a", ⟨[⟨[("count", .okVal (.strVal "1"))], .strK "x"⟩,
               ⟨[], .strSeq ["u", "v"]⟩,
               ⟨[], .num 7⟩]⟩)]).1.length : Int) ≤ 2 := by
  refine createMeasResults_respects_limit 2 _ (by norm_num) ?_
  intro p hp bv hbv
  simp only [List.mem_singleton] at hp
  subst hp
  simp only [List.mem_cons, List.not_mem_nil, or_false] at hbv
  rcases hbv with h | h | h <;> subst h <;> decide

/-! ## Claim C9: the Values measure merges by set union -/

/-- Additional association-list facts used by the Values characterisation. -/
@[simp] theorem eraseA_singleton_self (k : α) (x : β) :
    eraseA [(k, x)] k = [] := by
  simp [eraseA_cons]

@[simp] theorem insertA_singleton_self (k : α) (x v : β) :
    insertA [(k, x)] k v = [(k, v)] := by
  simp [insertA]

@[simp] theorem insertA_nil (k : α) (v : β) :
    insertA ([] : List (α × β)) k v = [(k, v)] := rfl

/-- A plain (non-eval) `Values` measure over column `c`. -/
def valuesAgg (c : String) : MeasureAggregator := ⟨.valuesFn, c, none⟩

/-- A query spec requesting exactly that measure. -/
def valuesQueryAggs (c : String) : QueryAggregators :=
  ⟨true, none, none, none, some [valuesAgg c]⟩

/-- The controller state at the start of a segment-statistics query with a
single plain `Values` measure. -/
def valuesInit (c : String) (sl : Nat) (qt : QueryType) : SearchResults :=
  initSegmentStatsResults
    (initSearchResults sl (some (valuesQueryAggs c)) qt) [valuesAgg c]

/-- Closed form of the controller state after some segments contributed to
the `Values` measure: `none` is the untouched initial state, `some s` the
state whose eval accumulator holds the set `s` and whose measure result is
the sorted materialisation of `s`. -/
def valuesState (c : String) (sl : Nat) (qt : QueryType) :
    Option (Finset String) → SearchResults
  | none => valuesInit c sl qt
  | some s =>
    { valuesInit c sl qt with
      runningEvalStats := [((valuesAgg c).strRepr, .strSetV s)]
      segStatsResults := some
        { measureResults :=
            [((valuesAgg c).strRepr, .strSliceV (s.sort (· ≤ ·)))]
          measureFunctions := [(valuesAgg c).strRepr]
          groupByCols := [] } }

/-- The string set a segment statistics map contributes to a `Values`
measure over column `c`: the unique-string set of that column when the
column is present, nothing otherwise. -/
def valuesContrib (c : String) (m : SstMap) : Finset String :=
  match lookupA m c with
  | some sst =>
    match sst.stringStats with
    | some ss => ss.strSet
    | none => ∅
  | none => ∅

/-- Whether `UpdateSegmentStats` processes the map at all for a plain
measure over column `c` (a nil/empty map and a map without the column are
skipped by the loop). -/
def contributes (c : String) (m : SstMap) : Bool :=
  !m.isEmpty && (lookupA m c).isSome

/-- The union of the contributions of a list of segment maps, starting
from `s`. -/
def unionContribFrom (c : String) (s : Finset String) (maps : List SstMap) :
    Finset String :=
  maps.foldl (fun acc m => acc ∪ valuesContrib c m) s

/-- The union of all contributions of a list of segment maps. -/
def unionContrib (c : String) (maps : List SstMap) : Finset String :=
  unionContribFrom c ∅ maps

/-- Folding a sequence of `UpdateSegmentStats` calls (each Go call mutates
the shared state and is chained through it). -/
def applyStatsSeq (ext : Externals) (mOps : List MeasureAggregator)
    (sr : SearchResults) (maps : List SstMap) : SearchResults :=
  maps.foldl (fun s m => (updateSegmentStats ext s m mOps).1) sr

/-- The running-set evolution matching `applyStatsSeq` on the closed-form
states. -/
def combineS (c : String) (S : Option (Finset String)) (maps : List SstMap) :
    Option (Finset String) :=
  maps.foldl
    (fun acc m =>
      if contributes c m then some (acc.getD ∅ ∪ valuesContrib c m) else acc)
    S

theorem contributes_false_contrib_empty (c : String) (m : SstMap)
    (h : contributes c m = false) (hne : ¬ m.isEmpty = true) :
    valuesContrib c m = ∅ := by
  unfold contributes at h
  unfold valuesContrib
  cases hl : lookupA m c with
  | none => rfl
  | some sst => simp [hne, hl] at h

/-- One `UpdateSegmentStats` call on a closed-form state: a contributing
map unions its string set into the running set (and the call reports no
error); any other map leaves the state untouched. -/
theorem values_step (ext : Externals) (c : String) (sl : Nat) (qt : QueryType)
    (S : Option (Finset String)) (m : SstMap) :
    updateSegmentStats ext (valuesState c sl qt S) m [valuesAgg c] =
      (valuesState c sl qt
        (if contributes c m then some (S.getD ∅ ∪ valuesContrib c m) else S),
       .ok) := by
  unfold updateSegmentStats
  cases m with
  | nil =>
    cases S <;> simp [contributes, updateStatsLoop]
  | cons p rest =>
    have hne : ((p :: rest : SstMap)).isEmpty = false := rfl
    cases hl : lookupA (p :: rest) c with
    | none =>
      have hcon : contributes c (p :: rest) = false := by
        simp [contributes, hl]
      cases S <;>
        simp [updateStatsLoop, valuesAgg, hl, hcon, valuesState, valuesInit]
    | some sst =>
      have hcon : contributes c (p :: rest) = true := by
        simp [contributes, hl]
      rw [hcon, if_pos rfl]
      cases hss : sst.stringStats with
      | none =>
        have hcontrib : valuesContrib c (p :: rest) = ∅ := by
          simp [valuesContrib, hl, hss]
        cases S with
        | none =>
          simp [updateStatsLoop, valuesAgg, hl, hss, hcontrib, valuesState,
            valuesInit, valuesPlainUpdate, initSegmentStatsResults,
            initSearchResults, valuesQueryAggs, MeasureAggregator.strRepr]
        | some s =>
          simp [updateStatsLoop, valuesAgg, hl, hss, hcontrib, valuesState,
            valuesInit, valuesPlainUpdate, initSegmentStatsResults,
            initSearchResults, valuesQueryAggs, MeasureAggregator.strRepr]
      | some ss =>
        have hcontrib : valuesContrib c (p :: rest) = ss.strSet := by
          simp [valuesContrib, hl, hss]
        cases S with
        | none =>
          simp [updateStatsLoop, valuesAgg, hl, hss, hcontrib, valuesState,
            valuesInit, valuesPlainUpdate, initSegmentStatsResults,
            initSearchResults, valuesQueryAggs, MeasureAggregator.strRepr]
        | some s =>
          simp [updateStatsLoop, valuesAgg, hl, hss, hcontrib, valuesState,
            valuesInit, valuesPlainUpdate, initSegmentStatsResults,
            initSearchResults, valuesQueryAggs, MeasureAggregator.strRepr]

theorem applyStatsSeq_valuesState (ext : Externals) (c : String) (sl : Nat)
    (qt : QueryType) (maps : List SstMap) :
    ∀ S, applyStatsSeq ext [valuesAgg c] (valuesState c sl qt S) maps =
      valuesState c sl qt (combineS c S maps) := by
  induction maps with
  | nil => intro S; rfl
  | cons m rest ih =>
    intro S
    show applyStatsSeq ext [valuesAgg c]
      ((updateSegmentStats ext (valuesState c sl qt S) m [valuesAgg c]).1)
      rest = _
    rw [values_step]
    rw [ih]
    rfl

theorem combineS_some (c : String) (maps : List SstMap) :
    ∀ s, combineS c (some s) maps = some (unionContribFrom c s maps) := by
  induction maps with
  | nil => intro s; rfl
  | cons m rest ih =>
    intro s
    by_cases hcon : contributes c m = true
    · show combineS c (if contributes c m then _ else _) rest = _
      rw [if_pos hcon, ih]
      rfl
    · rw [Bool.not_eq_true] at hcon
      by_cases hemp : m.isEmpty = true
      · have hcontrib : valuesContrib c m = ∅ := by
          cases m with
          | nil => rfl
          | cons p r => simp [List.isEmpty] at hemp
        show combineS c (if contributes c m then _ else _) rest = _
        rw [hcon, if_neg (by simp), ih]
        unfold unionContribFrom
        simp [hcontrib]
      · have hcontrib := contributes_false_contrib_empty c m hcon hemp
        show combineS c (if contributes c m then _ else _) rest = _
        rw [hcon, if_neg (by simp), ih]
        unfold unionContribFrom
        simp [hcontrib]

theorem combineS_none (c : String) (maps : List SstMap) :
    combineS c none maps =
      if maps.any (contributes c) then some (unionContrib c maps) else none := by
  induction maps with
  | nil => rfl
  | cons m rest ih =>
    by_cases hcon : contributes c m = true
    · show combineS c (if contributes c m then _ else _) rest = _
      rw [if_pos hcon, combineS_some]
      simp only [List.any_cons, hcon, Bool.true_or, if_pos]
      rfl
    · rw [Bool.not_eq_true] at hcon
      show combineS c (if contributes c m then _ else _) rest = _
      rw [hcon, if_neg (by simp), ih]
      have hcontrib : valuesContrib c m = ∅ := by
        by_cases hemp : m.isEmpty = true
        · cases m with
          | nil => rfl
          | cons p r => simp [List.isEmpty] at hemp
        · exact contributes_false_contrib_empty c m hcon hemp
      simp only [List.any_cons, hcon, Bool.false_or]
      unfold unionContrib unionContribFrom
      simp [hcontrib]

/-- Claim C9: for a plain (non-eval) `Values` measure over column `c`,
after any sequence of `UpdateSegmentStats` calls at least one of which
carries the column, the measure entry in the merged results is exactly the
set union of every segment string-set contribution, duplicates removed,
materialised as the lexicographically sorted sequence of the unique
strings. -/
theorem values_measure_union (ext : Externals) (c : String) (sl : Nat)
    (qt : QueryType) (maps : List SstMap)
    (hc : maps.any (contributes c) = true) :
    (applyStatsSeq ext [valuesAgg c] (valuesInit c sl qt) maps).segStatsResults
      = some
        { measureResults :=
            [((valuesAgg c).strRepr,
              .strSliceV ((unionContrib c maps).sort (· ≤ ·)))]
          measureFunctions := [(valuesAgg c).strRepr]
          groupByCols := [] } := by
  have h0 : valuesInit c sl qt = valuesState c sl qt none := rfl
  rw [h0, applyStatsSeq_valuesState, combineS_none, if_pos hc]
  rfl

/-- Witness for `values_measure_union`: two segments contribute the sets
{"b", "a"} and {"c", "a"}; the merged Values entry is the sorted unique
sequence ["a", "b", "c"]. -/
theorem values_measure_union_witness :
    (applyStatsSeq trivialExternals [valuesAgg "f"] (valuesInit "f" 0 .SegmentStatsCmd)
      [[("f", ⟨2, 0, 0, 0, some ⟨{"b", "a"}, []⟩⟩)],
       [("f", ⟨2, 0, 0, 0, some ⟨{"c", "a"}, []⟩⟩)]]).segStatsResults
      = some
        { measureResults := [((valuesAgg "f").strRepr,
            .strSliceV ["a", "b", "c"])]
          measureFunctions := [(valuesAgg "f").strRepr]
          groupByCols := [] } := by
  rw [values_measure_union trivialExternals "f" 0 .SegmentStatsCmd _ (by decide)]
  have hU : unionContrib "f"
      [[("f", ⟨2, 0, 0, 0, some ⟨{"b", "a"}, []⟩⟩)],
       [("f", ⟨2, 0, 0, 0, some ⟨{"c", "a"}, []⟩⟩)]] =
      ({"a", "b", "c"} : Finset String) := by decide
  rw [hU]
  have h1 : Finset.sort (α := String) (· ≤ ·) {"a", "b", "c"} =
      "a" :: Finset.sort (· ≤ ·) {"b", "c"} :=
    Finset.sort_insert (· ≤ ·)
      (by
        intro b hb
        rw [String.le_iff_toList_le]
        fin_cases hb <;> decide)
      (by decide)
  have h2 : Finset.sort (α := String) (· ≤ ·) {"b", "c"} =
      "b" :: Finset.sort (· ≤ ·) {"c"} :=
    Finset.sort_insert (· ≤ ·)
      (by
        intro b hb
        rw [String.le_iff_toList_le]
        fin_cases hb
        decide)
      (by decide)
  rw [h1, h2, Finset.sort_singleton]

/-! ## Claim C5: the remote raw-log cache domain invariant -/

/-- The record ids of a top-K content list. -/
def rrcIds (l : List RRC) : List String := l.map RRC.recordId

/-- The cache-domain invariant on a top-K content / raw-log cache pair:
the cache holds exactly the ids of the remotely contributed records
currently in the top-K; record ids are pairwise distinct and non-empty
(an empty id is the sentinel for "nothing evicted"). -/
def PairInv (l : List RRC) (cache : List (String × RawLog)) : Prop :=
  (∀ id, (lookupA cache id).isSome = true ↔
    ∃ r ∈ l, r.isRemote = true ∧ r.recordId = id) ∧
  (rrcIds l).Nodup ∧
  (∀ r ∈ l, r.recordId ≠ "")

/-- The cache-domain invariant on a controller state. -/
def StateInv (sr : SearchResults) : Prop :=
  PairInv sr.blockResults.results sr.remoteLogs

/-- A batch of incoming record ids is admissible against the current top-K
ids: pairwise distinct, disjoint from the current ids, and non-empty. -/
def freshBatch (cur : List String) (ids : List String) : Bool :=
  decide ids.Nodup && ids.all (fun i => !(cur.contains i) && !(i == ""))

/-- Well-formedness of one operation against the current state: locally
added records are locally sourced, remotely merged records are marked
remote, and record ids are fresh (real record ids are unique). -/
def wfOp (sr : SearchResults) : Op → Bool
  | .addBlock b =>
    freshBatch (rrcIds sr.blockResults.results) (rrcIds b.results) &&
      b.results.all (fun r => !r.isRemote)
  | .mergeRemote inp =>
    freshBatch (rrcIds sr.blockResults.results)
        (inp.rrcs.map (fun p => p.1.recordId)) &&
      inp.rrcs.all (fun p => p.1.isRemote)
  | .setEarly _ => true

/-- Well-formedness of an operation sequence, each operation checked
against the state it executes in. -/
def validOps : SearchResults → List Op → Bool
  | _, [] => true
  | sr, op :: rest => wfOp sr op && validOps (applyOp sr op) rest

theorem findWorst_mem {asc : Bool} {l : List RRC} {w : RRC}
    (h : findWorst asc l = some w) : w ∈ l := by
  unfold findWorst at h
  by_cases ha : asc = true
  · rw [if_pos ha] at h
    exact List.argmax_mem h
  · rw [if_neg ha] at h
    exact List.argmin_mem h

/-- The three outcomes of a modelled top-K insertion: admitted with nothing
evicted, admitted with the worst current entry evicted, or rejected. -/
theorem add_shape (br : BlockResults) (r : RRC) :
    br.add r = ({ br with results := r :: br.results }, true, "") ∨
    (∃ w, w ∈ br.results ∧ br.add r =
      ({ br with results := r :: br.results.filter (fun x => ¬ x = w) },
       true, w.recordId)) ∨
    br.add r = (br, false, "") := by
  unfold BlockResults.add
  by_cases h1 : br.results.length < br.sizeLimit
  · left
    rw [if_pos h1]
  · rw [if_neg h1]
    cases hw : findWorst br.ascending br.results with
    | none => right; right; rfl
    | some w =>
      by_cases h2 : ranksBetter br.ascending r w = true
      · right; left
        exact ⟨w, findWorst_mem hw, by simp [h2]⟩
      · right; right
        simp [h2]

theorem lookupA_removeLogC_self (c : List (String × RawLog)) (id : String)
    (h : id ≠ "") : lookupA (removeLogC c id) id = none := by
  unfold removeLogC
  rw [if_neg h]
  exact lookupA_eraseA_self c id

theorem lookupA_removeLogC_ne (c : List (String × RawLog)) (id' id : String)
    (h : id' ≠ id) : lookupA (removeLogC c id') id = lookupA c id := by
  unfold removeLogC
  by_cases he : id' = ""
  · rw [if_pos he]
  · rw [if_neg he]
    exact lookupA_eraseA_ne c id' id h

/-- Ids of the elements kept by an eviction are ids of the original list. -/
theorem rrcIds_filter_subset (l : List RRC) (w : RRC) :
    ∀ x ∈ rrcIds (l.filter (fun x => ¬ x = w)), x ∈ rrcIds l := by
  intro x hx
  unfold rrcIds at hx ⊢
  simp only [List.mem_map] at hx ⊢
  obtain ⟨y, hy, hxy⟩ := hx
  exact ⟨y, (List.mem_filter.mp hy).1, hxy⟩

theorem rrcIds_filter_nodup (l : List RRC) (w : RRC)
    (h : (rrcIds l).Nodup) : (rrcIds (l.filter (fun x => ¬ x = w))).Nodup := by
  unfold rrcIds at h ⊢
  exact h.sublist ((List.filter_sublist l).map RRC.recordId)

/-- Distinct ids make the id function injective on the list. -/
theorem ids_inj {l : List RRC} (h : (rrcIds l).Nodup) :
    ∀ x ∈ l, ∀ y ∈ l, x.recordId = y.recordId → x = y := by
  intro x hx y hy hxy
  exact List.inj_on_of_nodup_map h hx hy hxy

/-- After an insertion, every id in the container is the inserted id or one
of the previous ids. -/
theorem add_ids_subset (br : BlockResults) (r : RRC) :
    ∀ x ∈ rrcIds (br.add r).1.results, x ∈ r.recordId :: rrcIds br.results := by
  intro x hx
  rcases add_shape br r with h | ⟨w, _, h⟩ | h <;> rw [h] at hx
  · simpa [rrcIds] using hx
  · simp only [rrcIds, List.map_cons, List.mem_cons] at hx
    rcases hx with hx | hx
    · exact List.mem_cons.mpr (Or.inl hx)
    · exact List.mem_cons_of_mem _ (rrcIds_filter_subset br.results w x hx)
  · exact List.mem_cons_of_mem _ hx

theorem mem_of_mem_filterNe {l : List RRC} {w x : RRC}
    (hx : x ∈ l.filter (fun y => ¬ y = w)) : x ∈ l ∧ x ≠ w := by
  have := List.mem_filter.mp hx
  simpa using this

theorem mem_filterNe_of {l : List RRC} {w x : RRC} (h1 : x ∈ l) (h2 : x ≠ w) :
    x ∈ l.filter (fun y => ¬ y = w) := by
  apply List.mem_filter.mpr
  simpa using ⟨h1, h2⟩

/-- Preservation of the pair invariant by one local record insertion. -/
theorem localStep_inv (br : BlockResults) (cache : List (String × RawLog))
    (r : RRC)
    (hInv : PairInv br.results cache)
    (hfresh : r.recordId ∉ rrcIds br.results)
    (hne : r.recordId ≠ "")
    (hloc : r.isRemote = false) :
    PairInv (localAddStep (br, cache) r).1.results
      (localAddStep (br, cache) r).2 := by
  obtain ⟨hiff, hnd, hids⟩ := hInv
  rcases add_shape br r with h | ⟨w, hwmem, h⟩ | h
  · have hstep : localAddStep (br, cache) r =
        ({ br with results := r :: br.results }, cache) := by
      simp [localAddStep, h, removeLogC]
    rw [hstep]
    refine ⟨?_, ?_, ?_⟩
    · intro id
      rw [hiff id]
      constructor
      · rintro ⟨x, hxm, hxr, hxi⟩
        exact ⟨x, List.mem_cons_of_mem _ hxm, hxr, hxi⟩
      · rintro ⟨x, hxm, hxr, hxi⟩
        rcases List.mem_cons.mp hxm with rfl | hxm
        · rw [hloc] at hxr
          exact absurd hxr (by simp)
        · exact ⟨x, hxm, hxr, hxi⟩
    · have : rrcIds (r :: br.results) = r.recordId :: rrcIds br.results := rfl
      rw [this]
      exact List.nodup_cons.mpr ⟨hfresh, hnd⟩
    · intro x hx
      rcases List.mem_cons.mp hx with rfl | hx
      · exact hne
      · exact hids x hx
  · have hwne : w.recordId ≠ "" := hids w hwmem
    have hrw : r.recordId ≠ w.recordId := by
      intro he
      exact hfresh (he ▸ List.mem_map_of_mem RRC.recordId hwmem)
    have hstep : localAddStep (br, cache) r =
        ({ br with results := r :: br.results.filter (fun x => ¬ x = w) },
         removeLogC cache w.recordId) := by
      simp [localAddStep, h]
    rw [hstep]
    refine ⟨?_, ?_, ?_⟩
    · intro id
      by_cases hid : id = w.recordId
      · subst hid
        rw [lookupA_removeLogC_self cache w.recordId hwne]
        simp only [Option.isSome_none, Bool.false_eq_true, false_iff]
        rintro ⟨x, hxm, hxr, hxi⟩
        rcases List.mem_cons.mp hxm with rfl | hxm
        · exact hrw hxi
        · obtain ⟨hxl, hxw⟩ := mem_of_mem_filterNe hxm
          exact hxw (ids_inj hnd x hxl w hwmem hxi)
      · rw [lookupA_removeLogC_ne cache w.recordId id (fun he => hid he.symm),
          hiff id]
        constructor
        · rintro ⟨x, hxm, hxr, hxi⟩
          have hxw : x ≠ w := by
            intro he
            exact hid (he ▸ hxi).symm
          exact ⟨x, List.mem_cons_of_mem _ (mem_filterNe_of hxm hxw), hxr, hxi⟩
        · rintro ⟨x, hxm, hxr, hxi⟩
          rcases List.mem_cons.mp hxm with rfl | hxm
          · rw [hloc] at hxr
            exact absurd hxr (by simp)
          · exact ⟨x, (mem_of_mem_filterNe hxm).1, hxr, hxi⟩
    · have : rrcIds (r :: br.results.filter (fun x => ¬ x = w)) =
          r.recordId :: rrcIds (br.results.filter (fun x => ¬ x = w)) := rfl
      rw [this]
      refine List.nodup_cons.mpr ⟨?_, rrcIds_filter_nodup br.results w hnd⟩
      intro hmem
      exact hfresh (rrcIds_filter_subset br.results w r.recordId hmem)
    · intro x hx
      rcases List.mem_cons.mp hx with rfl | hx
      · exact hne
      · exact hids x (mem_of_mem_filterNe hx).1
  · have hstep : localAddStep (br, cache) r = (br, cache) := by
      simp [localAddStep, h, removeLogC]
    rw [hstep]
    exact ⟨hiff, hnd, hids⟩

/-- Preservation of the pair invariant by one remote record insertion with
its raw-log caching. -/
theorem remoteStep_inv (br : BlockResults) (cache : List (String × RawLog))
    (r : RRC) (lg : RawLog)
    (hInv : PairInv br.results cache)
    (hfresh : r.recordId ∉ rrcIds br.results)
    (hne : r.recordId ≠ "")
    (hrem : r.isRemote = true) :
    PairInv (remoteAddStep (br, cache) (r, lg)).1.results
      (remoteAddStep (br, cache) (r, lg)).2 := by
  obtain ⟨hiff, hnd, hids⟩ := hInv
  rcases add_shape br r with h | ⟨w, hwmem, h⟩ | h
  · have hstep : remoteAddStep (br, cache) (r, lg) =
        ({ br with results := r :: br.results }, addRawLogC cache r.recordId lg) := by
      simp [remoteAddStep, h, removeLogC]
    rw [hstep]
    refine ⟨?_, ?_, ?_⟩
    · intro id
      by_cases hid : id = r.recordId
      · subst hid
        rw [addRawLogC, lookupA_insertA_self]
        simp only [Option.isSome_some, true_iff]
        exact ⟨r, List.mem_cons_self r _, hrem, rfl⟩
      · rw [addRawLogC, lookupA_insertA_ne cache r.recordId id lg
          (fun he => hid he.symm), hiff id]
        constructor
        · rintro ⟨x, hxm, hxr, hxi⟩
          exact ⟨x, List.mem_cons_of_mem _ hxm, hxr, hxi⟩
        · rintro ⟨x, hxm, hxr, hxi⟩
          rcases List.mem_cons.mp hxm with rfl | hxm
          · exact absurd hxi.symm hid
          · exact ⟨x, hxm, hxr, hxi⟩
    · exact List.nodup_cons.mpr ⟨hfresh, hnd⟩
    · intro x hx
      rcases List.mem_cons.mp hx with rfl | hx
      · exact hne
      · exact hids x hx
  · have hwne : w.recordId ≠ "" := hids w hwmem
    have hrw : r.recordId ≠ w.recordId := by
      intro he
      exact hfresh (he ▸ List.mem_map_of_mem RRC.recordId hwmem)
    have hstep : remoteAddStep (br, cache) (r, lg) =
        ({ br with results := r :: br.results.filter (fun x => ¬ x = w) },
         removeLogC (addRawLogC cache r.recordId lg) w.recordId) := by
      simp [remoteAddStep, h]
    rw [hstep]
    refine ⟨?_, ?_, ?_⟩
    · intro id
      by_cases hid : id = w.recordId
      · subst hid
        rw [lookupA_removeLogC_self _ w.recordId hwne]
        simp only [Option.isSome_none, Bool.false_eq_true, false_iff]
        rintro ⟨x, hxm, hxr, hxi⟩
        rcases List.mem_cons.mp hxm with rfl | hxm
        · exact hrw hxi
        · obtain ⟨hxl, hxw⟩ := mem_of_mem_filterNe hxm
          exact hxw (ids_inj hnd x hxl w hwmem hxi)
      · rw [lookupA_removeLogC_ne _ w.recordId id (fun he => hid he.symm)]
        by_cases hidr : id = r.recordId
        · subst hidr
          rw [addRawLogC, lookupA_insertA_self]
          simp only [Option.isSome_some, true_iff]
          exact ⟨r, List.mem_cons_self r _, hrem, rfl⟩
        · rw [addRawLogC, lookupA_insertA_ne cache r.recordId id lg
            (fun he => hidr he.symm), hiff id]
          constructor
          · rintro ⟨x, hxm, hxr, hxi⟩
            have hxw : x ≠ w := by
              intro he
              exact hid (he ▸ hxi).symm
            exact ⟨x, List.mem_cons_of_mem _ (mem_filterNe_of hxm hxw), hxr, hxi⟩
          · rintro ⟨x, hxm, hxr, hxi⟩
            rcases List.mem_cons.mp hxm with rfl | hxm
            · exact absurd hxi.symm hidr
            · exact ⟨x, (mem_of_mem_filterNe hxm).1, hxr, hxi⟩
    · refine List.nodup_cons.mpr ⟨?_, rrcIds_filter_nodup br.results w hnd⟩
      intro hmem
      exact hfresh (rrcIds_filter_subset br.results w r.recordId hmem)
    · intro x hx
      rcases List.mem_cons.mp hx with rfl | hx
      · exact hne
      · exact hids x (mem_of_mem_filterNe hx).1
  · have hstep : remoteAddStep (br, cache) (r, lg) = (br, cache) := by
      simp [remoteAddStep, h, removeLogC]
    rw [hstep]
    exact ⟨hiff, hnd, hids⟩

theorem localFold_inv (recs : List RRC) :
    ∀ (br : BlockResults) (cache : List (String × RawLog)),
      PairInv br.results cache →
      (rrcIds recs).Nodup →
      (∀ x ∈ recs, x.recordId ∉ rrcIds br.results) →
      (∀ x ∈ recs, x.recordId ≠ "") →
      (∀ x ∈ recs, x.isRemote = false) →
      PairInv (recs.foldl localAddStep (br, cache)).1.results
        (recs.foldl localAddStep (br, cache)).2 := by
  induction recs with
  | nil =>
    intro br cache hInv _ _ _ _
    exact hInv
  | cons r rest ih =>
    intro br cache hInv hnd hdisj hne hloc
    have hr := List.mem_cons_self r rest
    have hstep := localStep_inv br cache r hInv (hdisj r hr) (hne r hr) (hloc r hr)
    have hndr : (rrcIds rest).Nodup := (List.nodup_cons.mp hnd).2
    have hrid : r.recordId ∉ rrcIds rest := (List.nodup_cons.mp hnd).1
    refine ih (localAddStep (br, cache) r).1 (localAddStep (br, cache) r).2
      hstep hndr ?_ (fun x hx => hne x (List.mem_cons_of_mem r hx))
      (fun x hx => hloc x (List.mem_cons_of_mem r hx))
    intro x hx hmem
    have hsub := add_ids_subset br r x.recordId hmem
    rcases List.mem_cons.mp hsub with heq | hmem'
    · exact hrid (heq ▸ List.mem_map_of_mem RRC.recordId hx)
    · exact hdisj x (List.mem_cons_of_mem r hx) hmem'

theorem remoteFold_inv (rrcs : List (RRC × RawLog)) :
    ∀ (br : BlockResults) (cache : List (String × RawLog)),
      PairInv br.results cache →
      (rrcs.map (fun p => p.1.recordId)).Nodup →
      (∀ p ∈ rrcs, p.1.recordId ∉ rrcIds br.results) →
      (∀ p ∈ rrcs, p.1.recordId ≠ "") →
      (∀ p ∈ rrcs, p.1.isRemote = true) →
      PairInv (rrcs.foldl remoteAddStep (br, cache)).1.results
        (rrcs.foldl remoteAddStep (br, cache)).2 := by
  induction rrcs with
  | nil =>
    intro br cache hInv _ _ _ _
    exact hInv
  | cons p rest ih =>
    intro br cache hInv hnd hdisj hne hrem
    have hp := List.mem_cons_self p rest
    have hstep := remoteStep_inv br cache p.1 p.2 hInv (hdisj p hp) (hne p hp)
      (hrem p hp)
    have hndr : (rest.map (fun p => p.1.recordId)).Nodup :=
      (List.nodup_cons.mp hnd).2
    have hrid : p.1.recordId ∉ rest.map (fun p => p.1.recordId) :=
      (List.nodup_cons.mp hnd).1
    have hpair : remoteAddStep (br, cache) p =
        remoteAddStep (br, cache) (p.1, p.2) := rfl
    refine ih (remoteAddStep (br, cache) p).1 (remoteAddStep (br, cache) p).2
      (by rw [hpair]; exact hstep) hndr ?_
      (fun x hx => hne x (List.mem_cons_of_mem p hx))
      (fun x hx => hrem x (List.mem_cons_of_mem p hx))
    intro x hx hmem
    have hsub : x.1.recordId ∈ p.1.recordId :: rrcIds br.results := by
      refine add_ids_subset br p.1 x.1.recordId ?_
      exact hmem
    rcases List.mem_cons.mp hsub with heq | hmem'
    · refine hrid ?_
      rw [← heq]
      exact List.mem_map_of_mem (fun q => q.1.recordId) hx
    · exact hdisj x (List.mem_cons_of_mem p hx) hmem'

theorem freshBatch_spec {cur ids : List String} (h : freshBatch cur ids = true) :
    ids.Nodup ∧ (∀ i ∈ ids, i ∉ cur) ∧ (∀ i ∈ ids, i ≠ "") := by
  unfold freshBatch at h
  rw [Bool.and_eq_true] at h
  obtain ⟨h1, h2⟩ := h
  rw [List.all_eq_true] at h2
  refine ⟨of_decide_eq_true h1, ?_, ?_⟩
  · intro i hi
    have := h2 i hi
    rw [Bool.and_eq_true] at this
    simpa using this.1
  · intro i hi
    have := h2 i hi
    rw [Bool.and_eq_true] at this
    simpa using this.2

/-- Preservation of the cache-domain invariant by one well-formed
controller operation. -/
theorem applyOp_inv (sr : SearchResults) (op : Op)
    (hInv : StateInv sr) (hwf : wfOp sr op = true) : StateInv (applyOp sr op) := by
  cases op with
  | addBlock b =>
    unfold wfOp at hwf
    rw [Bool.and_eq_true] at hwf
    obtain ⟨hfb, hall⟩ := hwf
    obtain ⟨hnd, hdisj, hne⟩ := freshBatch_spec hfb
    rw [List.all_eq_true] at hall
    show PairInv (b.results.foldl localAddStep
      (sr.blockResults, sr.remoteLogs)).1.results
      (b.results.foldl localAddStep (sr.blockResults, sr.remoteLogs)).2
    refine localFold_inv b.results sr.blockResults sr.remoteLogs hInv hnd ?_ ?_ ?_
    · intro x hx
      exact hdisj x.recordId (List.mem_map_of_mem RRC.recordId hx)
    · intro x hx
      exact hne x.recordId (List.mem_map_of_mem RRC.recordId hx)
    · intro x hx
      simpa using hall x hx
  | mergeRemote inp =>
    unfold wfOp at hwf
    rw [Bool.and_eq_true] at hwf
    obtain ⟨hfb, hall⟩ := hwf
    obtain ⟨hnd, hdisj, hne⟩ := freshBatch_spec hfb
    rw [List.all_eq_true] at hall
    show PairInv (inp.rrcs.foldl remoteAddStep
      (sr.blockResults, sr.remoteLogs)).1.results
      (inp.rrcs.foldl remoteAddStep (sr.blockResults, sr.remoteLogs)).2
    refine remoteFold_inv inp.rrcs sr.blockResults sr.remoteLogs hInv hnd ?_ ?_ ?_
    · intro p hp
      exact hdisj p.1.recordId (List.mem_map_of_mem (fun q => q.1.recordId) hp)
    · intro p hp
      exact hne p.1.recordId (List.mem_map_of_mem (fun q => q.1.recordId) hp)
    · intro p hp
      simpa using hall p hp
  | setEarly v => exact hInv

theorem validOps_inv (ops : List Op) :
    ∀ sr : SearchResults, StateInv sr → validOps sr ops = true →
      StateInv (applyOps sr ops) := by
  induction ops with
  | nil =>
    intro sr hInv _
    exact hInv
  | cons op rest ih =>
    intro sr hInv hv
    unfold validOps at hv
    rw [Bool.and_eq_true] at hv
    exact ih (applyOp sr op) (applyOp_inv sr op hInv hv.1) hv.2

theorem initState_inv (sl : Nat) (aggs : Option QueryAggregators)
    (qt : QueryType) : StateInv (initSearchResults sl aggs qt) := by
  refine ⟨?_, ?_, ?_⟩
  · intro id
    constructor
    · intro h
      simp [initSearchResults, lookupA] at h
    · rintro ⟨r, hr, _⟩
      simp [initSearchResults, initBlockResults] at hr
  · simp [initSearchResults, initBlockResults, rrcIds]
  · intro r hr
    simp [initSearchResults, initBlockResults] at hr

/-- Claim C5: after any well-formed sequence of `AddBlockResults` and
`MergeRemoteRRCResults` calls (record ids pairwise distinct and non-empty,
local records locally sourced, remote records marked remote), every key of
the remote raw-log cache is the record id of a remotely contributed record
currently held by the bounded top-K, and every remotely contributed record
currently in the top-K has its raw log in the cache. -/
theorem rawLogCache_domain_invariant (sl : Nat)
    (aggs : Option QueryAggregators) (qt : QueryType) (ops : List Op)
    (hv : validOps (initSearchResults sl aggs qt) ops = true) :
    ∀ id, (lookupA (applyOps (initSearchResults sl aggs qt) ops).remoteLogs
        id).isSome = true ↔
      ∃ r ∈ (applyOps (initSearchResults sl aggs qt) ops).blockResults.results,
        r.isRemote = true ∧ r.recordId = id :=
  (validOps_inv ops (initSearchResults sl aggs qt)
    (initState_inv sl aggs qt) hv).1

/-- Witness for `rawLogCache_domain_invariant`: a remote merge that accepts
one record, followed by a local add that evicts it (size limit 1, ascending
order, better sort value); the hypotheses are discharged by evaluation. -/
theorem rawLogCache_domain_invariant_witness :
    validOps (initSearchResults 1 none .RRCCmd)
      [Op.mergeRemote ⟨[(⟨"r1", 5, true⟩, "log1")], none, none, [], 1, false⟩,
       Op.addBlock ⟨[⟨"l1", 3, false⟩], 1, none, none⟩] = true ∧
    ∀ id, (lookupA (applyOps (initSearchResults 1 none .RRCCmd)
        [Op.mergeRemote ⟨[(⟨"r1", 5, true⟩, "log1")], none, none, [], 1, false⟩,
         Op.addBlock ⟨[⟨"l1", 3, false⟩], 1, none, none⟩]).remoteLogs
        id).isSome = true ↔
      ∃ r ∈ (applyOps (initSearchResults 1 none .RRCCmd)
        [Op.mergeRemote ⟨[(⟨"r1", 5, true⟩, "log1")], none, none, [], 1, false⟩,
         Op.addBlock ⟨[⟨"l1", 3, false⟩], 1, none, none⟩]).blockResults.results,
        r.isRemote = true ∧ r.recordId = id :=
  ⟨by decide, rawLogCache_domain_invariant 1 none .RRCCmd _ (by decide)⟩

/-! ## Claim C8: the segment-key encoding table -/

theorem lookupA_eq_none_iff (m : List (α × β)) (k : α) :
    lookupA m k = none ↔ k ∉ keysA m := by
  induction m with
  | nil => simp [keysA]
  | cons p rest ih =>
    by_cases hp : p.1 = k
    · simp [keysA, hp]
    · simp only [lookupA_cons, if_neg hp, keysA, List.map_cons, List.mem_cons]
      rw [ih]
      constructor
      · intro h hc
        rcases hc with hc | hc
        · exact hp hc.symm
        · exact h hc
      · intro h hc
        exact h (Or.inr hc)

theorem mem_keysA_of_lookupA {m : List (α × β)} {k : α} {v : β}
    (h : lookupA m k = some v) : k ∈ keysA m := by
  by_contra hc
  rw [← lookupA_eq_none_iff] at hc
  rw [hc] at h
  exact Option.noConfusion h

/-- Fold a sequence of `GetAddSegEnc` calls through the state. -/
def applyKeys (sr : SearchResults) (keys : List String) : SearchResults :=
  keys.foldl (fun s k => (getAddSegEnc s k).2) sr

/-- The invariant of the segment-key encoding table: distinct keys, the
counter one past the table size modulo 2^16, every assigned encoding in
`[1, size]`, and the two direction maps mutually inverse. -/
def EncInv (sr : SearchResults) : Prop :=
  (keysA sr.segKeyToEnc).Nodup ∧
  sr.maxSegKeyEnc = (1 + sr.segKeyToEnc.length) % 2 ^ 16 ∧
  (∀ k e, lookupA sr.segKeyToEnc k = some e →
    1 ≤ e ∧ e ≤ sr.segKeyToEnc.length) ∧
  (∀ k e, lookupA sr.segKeyToEnc k = some e ↔
    lookupA sr.segEncToKey e = some k)

/-- One `GetAddSegEnc` call preserves the encoding invariant while the
table still has room below the `uint16` wrap point, and grows the table
domain by the requested key. -/
theorem getAddSegEnc_step (sr : SearchResults) (sk : String)
    (hInv : EncInv sr) (hlen : sr.segKeyToEnc.length ≤ 65534) :
    EncInv (getAddSegEnc sr sk).2 ∧
    (getAddSegEnc sr sk).2.segKeyToEnc.length =
      (if lookupA sr.segKeyToEnc sk = none then sr.segKeyToEnc.length + 1
       else sr.segKeyToEnc.length) ∧
    (keysA (getAddSegEnc sr sk).2.segKeyToEnc).toFinset =
      insert sk (keysA sr.segKeyToEnc).toFinset := by
  obtain ⟨hndk, hmax, hbound, hiff⟩ := hInv
  cases hk : lookupA sr.segKeyToEnc sk with
  | some e =>
    have hres : (getAddSegEnc sr sk).2 = sr := by
      unfold getAddSegEnc
      rw [hk]
    rw [hres]
    refine ⟨⟨hndk, hmax, hbound, hiff⟩, by simp, ?_⟩
    exact (Finset.insert_eq_self.mpr
      (List.mem_toFinset.mpr (mem_keysA_of_lookupA hk))).symm
  | none =>
    have hnm : sk ∉ keysA sr.segKeyToEnc := (lookupA_eq_none_iff _ sk).mp hk
    have herase : eraseA sr.segKeyToEnc sk = sr.segKeyToEnc :=
      eraseA_of_lookupA_none _ sk hk
    have hmaxval : sr.maxSegKeyEnc = 1 + sr.segKeyToEnc.length := by
      rw [hmax]
      omega
    have henc_none : lookupA sr.segEncToKey sr.maxSegKeyEnc = none := by
      cases he : lookupA sr.segEncToKey sr.maxSegKeyEnc with
      | none => rfl
      | some k0 =>
        have := (hiff k0 sr.maxSegKeyEnc).mpr he
        have hb := hbound k0 sr.maxSegKeyEnc this
        omega
    have herase2 : eraseA sr.segEncToKey sr.maxSegKeyEnc = sr.segEncToKey :=
      eraseA_of_lookupA_none _ _ henc_none
    have hres : (getAddSegEnc sr sk).2 =
        { sr with
          segEncToKey := (sr.maxSegKeyEnc, sk) :: sr.segEncToKey
          segKeyToEnc := (sk, sr.maxSegKeyEnc) :: sr.segKeyToEnc
          maxSegKeyEnc := (sr.maxSegKeyEnc + 1) % 2 ^ 16 } := by
      unfold getAddSegEnc
      rw [hk]
      simp only [insertA, herase, herase2]
    rw [hres]
    refine ⟨⟨?_, ?_, ?_, ?_⟩, by simp, ?_⟩
    · exact List.nodup_cons.mpr ⟨hnm, hndk⟩
    · show (sr.maxSegKeyEnc + 1) % 2 ^ 16 =
        (1 + (sr.segKeyToEnc.length + 1)) % 2 ^ 16
      rw [hmaxval]
      omega
    · intro k e he
      rw [lookupA_cons] at he
      by_cases hks : sk = k
      · rw [if_pos hks] at he
        have : e = sr.maxSegKeyEnc := by
          injection he
          omega
        simp only [List.length_cons]
        omega
      · rw [if_neg hks] at he
        have := hbound k e he
        simp only [List.length_cons]
        omega
    · intro k e
      rw [lookupA_cons, lookupA_cons]
      by_cases hks : sk = k
      · rw [if_pos hks]
        by_cases hes : sr.maxSegKeyEnc = e
        · rw [if_pos hes]
          subst hks
          subst hes
          simp
        · rw [if_neg hes]
          constructor
          · intro h
            injection h with h
            exact absurd h hes
          · intro h
            have := (hiff k e).mpr h
            exact absurd (mem_keysA_of_lookupA (hks ▸ this)) hnm
      · rw [if_neg hks]
        by_cases hes : sr.maxSegKeyEnc = e
        · rw [if_pos hes]
          constructor
          · intro h
            have := hbound k e h
            omega
          · intro h
            injection h with h
            exact absurd h hks
        · rw [if_neg hes]
          exact hiff k e
    · show ((sk :: keysA sr.segKeyToEnc).toFinset : Finset String) = _
      rw [List.toFinset_cons]

/-- The encoding invariant holds along any key sequence whose distinct-key
budget keeps the table below the `uint16` wrap point, the table domain
accumulates exactly the keys seen, and the table size counts them. -/
theorem applyKeys_inv (keys : List String) :
    ∀ sr : SearchResults, EncInv sr →
      sr.segKeyToEnc.length +
        (keys.toFinset \ (keysA sr.segKeyToEnc).toFinset).card ≤ 65535 →
      EncInv (applyKeys sr keys) ∧
      (keysA (applyKeys sr keys).segKeyToEnc).toFinset =
        (keysA sr.segKeyToEnc).toFinset ∪ keys.toFinset ∧
      (applyKeys sr keys).segKeyToEnc.length =
        sr.segKeyToEnc.length +
          (keys.toFinset \ (keysA sr.segKeyToEnc).toFinset).card := by
  induction keys with
  | nil =>
    intro sr hInv _
    exact ⟨hInv, by simp [applyKeys], by simp [applyKeys]⟩
  | cons k rest ih =>
    intro sr hInv hbudget
    have hlen : sr.segKeyToEnc.length ≤ 65534 ∨
        k ∈ (keysA sr.segKeyToEnc).toFinset := by
      by_cases hk : k ∈ (keysA sr.segKeyToEnc).toFinset
      · exact Or.inr hk
      · left
        have hk1 : k ∈ (k :: rest).toFinset \ (keysA sr.segKeyToEnc).toFinset := by
          simp [hk]
        have := Finset.card_pos.mpr ⟨k, hk1⟩
        omega
    cases hk : lookupA sr.segKeyToEnc k with
    | some e =>
      have hkmem : k ∈ (keysA sr.segKeyToEnc).toFinset :=
        List.mem_toFinset.mpr (mem_keysA_of_lookupA hk)
      have hres : (getAddSegEnc sr k).2 = sr := by
        unfold getAddSegEnc
        rw [hk]
      have hstep : applyKeys sr (k :: rest) = applyKeys sr rest := by
        show applyKeys (getAddSegEnc sr k).2 rest = applyKeys sr rest
        rw [hres]
      have hsd : ((k :: rest).toFinset : Finset String) \
          (keysA sr.segKeyToEnc).toFinset =
          rest.toFinset \ (keysA sr.segKeyToEnc).toFinset := by
        rw [List.toFinset_cons, Finset.insert_sdiff_of_mem _ hkmem]
      rw [hsd] at hbudget
      obtain ⟨h1, h2, h3⟩ := ih sr hInv hbudget
      refine ⟨by rw [hstep]; exact h1, ?_, ?_⟩
      · rw [hstep, h2, List.toFinset_cons, Finset.union_insert]
        exact (Finset.insert_eq_self.mpr (Finset.mem_union_left _ hkmem)).symm
      · rw [hstep, h3, hsd]
    | none =>
      have hknm : k ∉ (keysA sr.segKeyToEnc).toFinset := by
        rw [List.mem_toFinset, ← lookupA_eq_none_iff]
        exact hk
      have hlen2 : sr.segKeyToEnc.length ≤ 65534 := by
        rcases hlen with h | h
        · exact h
        · exact absurd h hknm
      obtain ⟨hstep1, hstep2, hstep3⟩ := getAddSegEnc_step sr k
        ⟨hInv.1, hInv.2.1, hInv.2.2.1, hInv.2.2.2⟩ hlen2
      rw [hk, if_pos rfl] at hstep2
      have hX : ((k :: rest).toFinset : Finset String) \
          (keysA sr.segKeyToEnc).toFinset =
          insert k (rest.toFinset \ (keysA sr.segKeyToEnc).toFinset) := by
        rw [List.toFinset_cons, Finset.insert_sdiff_of_not_mem _ hknm]
      have hY : (rest.toFinset : Finset String) \
          (keysA (getAddSegEnc sr k).2.segKeyToEnc).toFinset =
          (rest.toFinset \ (keysA sr.segKeyToEnc).toFinset).erase k := by
        rw [hstep3, Finset.sdiff_insert]
      have hcard : ((k :: rest).toFinset \
          (keysA sr.segKeyToEnc).toFinset).card =
          ((rest.toFinset \ (keysA sr.segKeyToEnc).toFinset).erase k).card + 1 := by
        rw [hX]
        have hmm : insert k ((rest.toFinset : Finset String) \
            (keysA sr.segKeyToEnc).toFinset) =
            insert k (((rest.toFinset : Finset String) \
              (keysA sr.segKeyToEnc).toFinset).erase k) := by
          ext x
          by_cases hx : x = k <;> simp [hx]
        rw [hmm, Finset.card_insert_of_not_mem (Finset.not_mem_erase k _)]
      have hbudget2 : (getAddSegEnc sr k).2.segKeyToEnc.length +
          (rest.toFinset \
            (keysA (getAddSegEnc sr k).2.segKeyToEnc).toFinset).card ≤ 65535 := by
        rw [hstep2, hY]
        omega
      have happ : applyKeys sr (k :: rest) =
          applyKeys (getAddSegEnc sr k).2 rest := rfl
      obtain ⟨h1, h2, h3⟩ := ih (getAddSegEnc sr k).2 hstep1 hbudget2
      refine ⟨by rw [happ]; exact h1, ?_, ?_⟩
      · rw [happ, h2, hstep3, List.toFinset_cons, Finset.insert_union,
          Finset.union_insert]
      · rw [happ, h3, hstep2, hY, hcard]
        omega

theorem initEnc_inv (sl : Nat) (aggs : Option QueryAggregators)
    (qt : QueryType) : EncInv (initSearchResults sl aggs qt) := by
  refine ⟨?_, ?_, ?_, ?_⟩
  · simp [initSearchResults, keysA]
  · norm_num [initSearchResults]
  · intro k e h
    simp [initSearchResults] at h
  · intro k e
    simp [initSearchResults]

/-- Claim C8 (amended): as long as a query sees at most 65535 distinct
segment keys (the `uint16` counter has not wrapped), `GetAddSegEnc` is
idempotent for a seen key (same encoding, no state change), a fresh key
receives the current `MaxSegKeyEnc` value and the counter then increments
(modulo 2^16), the counter starts at 1, encoding 0 is never assigned, and
the two direction maps are mutually inverse. -/
theorem getAddSegEnc_spec (sl : Nat) (aggs : Option QueryAggregators)
    (qt : QueryType) (keys : List String) (sk : String)
    (hcard : keys.toFinset.card ≤ 65535) :
    (initSearchResults sl aggs qt).maxSegKeyEnc = 1 ∧
    (∀ e, lookupA (applyKeys (initSearchResults sl aggs qt) keys).segKeyToEnc
        sk = some e →
      getAddSegEnc (applyKeys (initSearchResults sl aggs qt) keys) sk =
        (e, applyKeys (initSearchResults sl aggs qt) keys)) ∧
    (lookupA (applyKeys (initSearchResults sl aggs qt) keys).segKeyToEnc sk
        = none →
      (getAddSegEnc (applyKeys (initSearchResults sl aggs qt) keys) sk).1 =
        (applyKeys (initSearchResults sl aggs qt) keys).maxSegKeyEnc ∧
      (getAddSegEnc (applyKeys (initSearchResults sl aggs qt) keys)
          sk).2.maxSegKeyEnc =
        ((applyKeys (initSearchResults sl aggs qt) keys).maxSegKeyEnc + 1)
          % 2 ^ 16) ∧
    (∀ k, lookupA (applyKeys (initSearchResults sl aggs qt) keys).segKeyToEnc
        k ≠ some 0) ∧
    (∀ k e,
      lookupA (applyKeys (initSearchResults sl aggs qt) keys).segKeyToEnc k
          = some e ↔
      lookupA (applyKeys (initSearchResults sl aggs qt) keys).segEncToKey e
          = some k) := by
  have hbud : (initSearchResults sl aggs qt).segKeyToEnc.length +
      (keys.toFinset \
        (keysA (initSearchResults sl aggs qt).segKeyToEnc).toFinset).card
      ≤ 65535 := by
    simpa [initSearchResults, keysA] using hcard
  obtain ⟨⟨hnd, hmax, hbound, hiff⟩, _, _⟩ :=
    applyKeys_inv keys (initSearchResults sl aggs qt)
      (initEnc_inv sl aggs qt) hbud
  refine ⟨rfl, ?_, ?_, ?_, hiff⟩
  · intro e he
    unfold getAddSegEnc
    rw [he]
  · intro hnone
    unfold getAddSegEnc
    rw [hnone]
    exact ⟨rfl, rfl⟩
  · intro k h
    have := (hbound k 0 h).1
    omega

/-- Allocation behaviour of `GetAddSegEnc` on an unseen key. -/
theorem getAddSegEnc_fresh (sr : SearchResults) (sk : String)
    (hk : lookupA sr.segKeyToEnc sk = none) :
    (getAddSegEnc sr sk).1 = sr.maxSegKeyEnc ∧
    lookupA (getAddSegEnc sr sk).2.segKeyToEnc sk = some sr.maxSegKeyEnc := by
  unfold getAddSegEnc
  rw [hk]
  exact ⟨rfl, lookupA_insertA_self _ _ _⟩

/-- The 65535 pairwise distinct segment keys that exhaust the `uint16`
counter. -/
def wrapKeys : List String :=
  (List.range 65535).map (fun i => String.mk (List.replicate i 'a'))

/-- A 65536-th distinct segment key. -/
def wrapFresh : String := String.mk (List.replicate 65535 'a')

theorem wrapInj : Function.Injective
    (fun i : Nat => String.mk (List.replicate i 'a')) := by
  intro i j h
  have h2 : List.replicate i 'a' = List.replicate j 'a' :=
    congrArg String.data h
  have h3 := congrArg List.length h2
  simpa using h3

/-- Counterexample to claim C8 as stated: `MaxSegKeyEnc` is a `uint16`,
so after 65535 distinct keys the counter wraps to 0 and the 65536-th
distinct key is assigned encoding 0 — which the claim says never
happens. -/
theorem getAddSegEnc_wrap_counterexample :
    (getAddSegEnc (applyKeys (initSearchResults 0 none .RRCCmd) wrapKeys)
      wrapFresh).1 = 0 ∧
    lookupA (getAddSegEnc (applyKeys (initSearchResults 0 none .RRCCmd)
      wrapKeys) wrapFresh).2.segKeyToEnc wrapFresh = some 0 := by
  have hnodup : wrapKeys.Nodup :=
    List.Nodup.map wrapInj (List.nodup_range 65535)
  have hlen : wrapKeys.length = 65535 := by
    unfold wrapKeys
    rw [List.length_map, List.length_range]
  have hcard : wrapKeys.toFinset.card = 65535 := by
    rw [List.toFinset_card_of_nodup hnodup, hlen]
  have hd0 : (keysA (initSearchResults 0 none
      QueryType.RRCCmd).segKeyToEnc).toFinset = (∅ : Finset String) := rfl
  have hl0 : (initSearchResults 0 none
      QueryType.RRCCmd).segKeyToEnc.length = 0 := rfl
  have hbud : (initSearchResults 0 none .RRCCmd).segKeyToEnc.length +
      (wrapKeys.toFinset \
        (keysA (initSearchResults 0 none .RRCCmd).segKeyToEnc).toFinset).card
      ≤ 65535 := by
    rw [hl0, hd0, Finset.sdiff_empty, hcard]
  obtain ⟨⟨hnd, hmax, hbound, hiff⟩, hdom, hlen2⟩ :=
    applyKeys_inv wrapKeys (initSearchResults 0 none .RRCCmd)
      (initEnc_inv 0 none .RRCCmd) hbud
  have hL : (applyKeys (initSearchResults 0 none .RRCCmd)
      wrapKeys).segKeyToEnc.length = 65535 := by
    rw [hlen2, hl0, hd0, Finset.sdiff_empty, hcard]
  have hM : (applyKeys (initSearchResults 0 none .RRCCmd)
      wrapKeys).maxSegKeyEnc = 0 := by
    rw [hmax, hL]
    norm_num
  have hfresh : lookupA (applyKeys (initSearchResults 0 none .RRCCmd)
      wrapKeys).segKeyToEnc wrapFresh = none := by
    rw [lookupA_eq_none_iff]
    intro hmem
    have hfin := List.mem_toFinset.mpr hmem
    rw [hdom, hd0, Finset.empty_union, List.mem_toFinset] at hfin
    obtain ⟨i, hi, he⟩ := List.mem_map.mp hfin
    have hi2 := List.mem_range.mp hi
    have heq : (fun i : Nat => String.mk (List.replicate i 'a')) i =
        (fun i : Nat => String.mk (List.replicate i 'a')) 65535 := he
    have := wrapInj heq
    omega
  obtain ⟨h1, h2⟩ := getAddSegEnc_fresh
    (applyKeys (initSearchResults 0 none .RRCCmd) wrapKeys) wrapFresh hfresh
  rw [h1, h2, hM]
  exact ⟨rfl, rfl⟩

/-- Witness for `getAddSegEnc_spec`: after registering two keys, the first
key is idempotently re-encoded as 1 with the state unchanged, and no key is
encoded as 0. -/
theorem getAddSegEnc_spec_witness :
    (initSearchResults 0 none .RRCCmd).maxSegKeyEnc = 1 ∧
    getAddSegEnc (applyKeys (initSearchResults 0 none .RRCCmd) ["k1", "k2"])
      "k1" = (1, applyKeys (initSearchResults 0 none .RRCCmd) ["k1", "k2"]) ∧
    (∀ k, lookupA (applyKeys (initSearchResults 0 none .RRCCmd)
      ["k1", "k2"]).segKeyToEnc k ≠ some 0) := by
  obtain ⟨h0, hid, _, hzero, _⟩ :=
    getAddSegEnc_spec 0 none .RRCCmd ["k1", "k2"] "k1" (by decide)
  exact ⟨h0, hid 1 (by decide), hzero⟩

end SegResults
